import Mathlib

/-!
Verification development for the Team-115 "Hopeful Futures" web application.

The repository's core consists of:
* a profile codec (`src/frontend/app/page.tsx` encode, `src/frontend/app/results/page.tsx`
  `decodeUserProfile` / `safeParseArray` / `decodeBase64`),
* three backend routes (`api/search-jobs`, `api/training-plan`, and the `simplify-job`
  route contained in the results bundle), each calling an external generative API with
  hardcoded fallback data, and
* a client-side result aggregator (`ResultsPage` `fetchAll`).

This file shallowly embeds those functions in Lean.  JavaScript strings are modelled as
Lean `String`s (the claims under study only exercise code points below 256, where the
two notions of string agree); JSON values are an explicit inductive type; functions that
can throw in JavaScript return `Except String`; sources of nondeterminism
(`Date.now()`, `Math.random()`, the random shuffle, the network) are explicit
parameters.
-/

namespace HF

/-- A JavaScript JSON value.  Numbers are kept as their source lexeme together with a
syntactic zero flag: the repository's code never inspects the magnitude of a parsed
number, it only ever tests truthiness (`0` is falsy), so this representation models
every use site.  Object fields are kept in source order; duplicate keys are resolved by
`jsGetL` taking the last occurrence, as JavaScript object construction does. -/
inductive Json where
  | null : Json
  | bool (b : Bool) : Json
  | num (isZero : Bool) (lexeme : String) : Json
  | str (s : String) : Json
  | arr (elems : List Json) : Json
  | obj (fields : List (String × Json)) : Json

/-- Last-occurrence lookup in an association list: JavaScript property lookup on an
object built from a field list with possibly duplicated keys keeps the last value. -/
def jsGetL (fields : List (String × Json)) (k : String) : Option Json :=
  match fields with
  | [] => none
  | (k', v) :: rest =>
    match jsGetL rest k with
    | some w => some w
    | none => if k' = k then some v else none

/-- JavaScript property access `v?.k`: defined on objects, `undefined` (here `none`)
on every other JSON value. -/
def jsGet (v : Json) (k : String) : Option Json :=
  match v with
  | Json.obj fields => jsGetL fields k
  | _ => none

/-- JavaScript truthiness of a JSON value: `null`, `false`, `0` and `""` are falsy. -/
def jsTruthy (v : Json) : Bool :=
  match v with
  | Json.null => false
  | Json.bool b => b
  | Json.num isZero _ => !isZero
  | Json.str s => s ≠ ""
  | Json.arr _ => true
  | Json.obj _ => true

/-- Truthiness of an optional value (`undefined` is falsy). -/
def jsTruthyOpt (v : Option Json) : Bool :=
  match v with
  | none => false
  | some w => jsTruthy w

/-! ## JSON.stringify

The encoder (`page.tsx` form submission) only ever stringifies flat string-keyed
objects whose values are strings, and arrays of strings, so only those two shapes (and
the string escaping they share) are defined.  The escaping is that of the ECMAScript
`QuoteJSONString` operation restricted to code points below 256: quote and backslash
get a two-character escape, control characters get `\b`, `\t`, `\n`, `\f`, `\r` or a
lowercase `\u00xx` escape, and everything else is emitted verbatim. -/

/-- Lowercase hexadecimal digit for `n < 16`. -/
def hexDigit (n : Nat) : Char :=
  if n < 10 then Char.ofNat (48 + n) else Char.ofNat (87 + n)

/-- JSON escaping of a single character, as `JSON.stringify` performs it. -/
def escapeChar (c : Char) : List Char :=
  if c = '"' then ['\\', '"']
  else if c = '\\' then ['\\', '\\']
  else if c.toNat < 32 then
    if c.toNat = 8 then ['\\', 'b']
    else if c.toNat = 9 then ['\\', 't']
    else if c.toNat = 10 then ['\\', 'n']
    else if c.toNat = 12 then ['\\', 'f']
    else if c.toNat = 13 then ['\\', 'r']
    else ['\\', 'u', '0', '0', hexDigit (c.toNat / 16), hexDigit (c.toNat % 16)]
  else [c]

/-- The escaped body of a JSON string literal. -/
def escapeList (cs : List Char) : List Char :=
  match cs with
  | [] => []
  | c :: rest => escapeChar c ++ escapeList rest

/-- `JSON.stringify` of a string. -/
def stringifyStr (s : String) : List Char :=
  '"' :: (escapeList s.data ++ ['"'])

/-- The comma-separated bodies of a stringified array of strings. -/
def stringifyStrArrBody (l : List String) : List Char :=
  match l with
  | [] => []
  | [s] => stringifyStr s
  | s :: rest => stringifyStr s ++ ',' :: stringifyStrArrBody rest

/-- `JSON.stringify` of an array of strings. -/
def stringifyStrArr (l : List String) : String :=
  ⟨'[' :: (stringifyStrArrBody l ++ [']'])⟩

/-- The comma-separated members of a stringified flat object of strings. -/
def stringifyFlatObjBody (l : List (String × String)) : List Char :=
  match l with
  | [] => []
  | [(k, v)] => stringifyStr k ++ ':' :: stringifyStr v
  | (k, v) :: rest => stringifyStr k ++ ':' :: stringifyStr v ++ ',' :: stringifyFlatObjBody rest

/-- The opening-brace character (U+007B). -/
def lbrace : Char := Char.ofNat 123

/-- The closing-brace character (U+007D). -/
def rbrace : Char := Char.ofNat 125

/-- `JSON.stringify` of a flat object whose values are all strings, in field order. -/
def stringifyFlatObj (l : List (String × String)) : String :=
  ⟨lbrace :: (stringifyFlatObjBody l ++ [rbrace])⟩

/-! ## JSON.parse

A total executable recursive-descent parser over `List Char`.  The mutual recursion
between values and array/object members is bounded by an explicit fuel parameter that
every recursive call decrements; `parseJsonStr` supplies `length + 1` fuel, which is
always sufficient because every recursive call consumes at least one character.  The
grammar is that of `JSON.parse`: leading-zero restrictions on numbers, mandatory
digits in fractions and exponents, no raw control characters inside strings, and the
whole input (up to trailing whitespace) must be consumed. -/

/-- JSON whitespace. -/
def isJsonWs (c : Char) : Bool :=
  c = ' ' || c = '\t' || c = '\n' || c = '\r'

/-- Drop leading JSON whitespace. -/
def skipWs (cs : List Char) : List Char :=
  match cs with
  | [] => []
  | c :: rest => if isJsonWs c then skipWs rest else cs

/-- Value of a hexadecimal digit. -/
def hexVal (c : Char) : Option Nat :=
  if 48 ≤ c.toNat ∧ c.toNat ≤ 57 then some (c.toNat - 48)
  else if 97 ≤ c.toNat ∧ c.toNat ≤ 102 then some (c.toNat - 87)
  else if 65 ≤ c.toNat ∧ c.toNat ≤ 70 then some (c.toNat - 55)
  else none

/-- Parse the body of a JSON string literal (the opening quote already consumed),
returning the decoded characters and the remaining input.  Note: `\uXXXX` escapes
denoting surrogate code points are not representable as a Lean `Char`; `Char.ofNat`
maps them to `'\0'`.  No theorem below exercises that corner. -/
def parseStringBody (cs : List Char) : Option (List Char × List Char) :=
  match cs with
  | [] => none
  | c :: rest =>
    if c = '"' then some ([], rest)
    else if c = '\\' then
      match rest with
      | [] => none
      | e :: t =>
        if e = '"' then (parseStringBody t).map (fun r => ('"' :: r.1, r.2))
        else if e = '\\' then (parseStringBody t).map (fun r => ('\\' :: r.1, r.2))
        else if e = '/' then (parseStringBody t).map (fun r => ('/' :: r.1, r.2))
        else if e = 'b' then (parseStringBody t).map (fun r => (Char.ofNat 8 :: r.1, r.2))
        else if e = 'f' then (parseStringBody t).map (fun r => (Char.ofNat 12 :: r.1, r.2))
        else if e = 'n' then (parseStringBody t).map (fun r => (Char.ofNat 10 :: r.1, r.2))
        else if e = 'r' then (parseStringBody t).map (fun r => (Char.ofNat 13 :: r.1, r.2))
        else if e = 't' then (parseStringBody t).map (fun r => (Char.ofNat 9 :: r.1, r.2))
        else if e = 'u' then
          match t with
          | h1 :: h2 :: h3 :: h4 :: t2 =>
            match hexVal h1, hexVal h2, hexVal h3, hexVal h4 with
            | some a, some b, some hc, some d =>
              (parseStringBody t2).map
                (fun r => (Char.ofNat (a * 4096 + b * 256 + hc * 16 + d) :: r.1, r.2))
            | _, _, _, _ => none
          | _ => none
        else none
    else if c.toNat < 32 then none
    else (parseStringBody rest).map (fun r => (c :: r.1, r.2))

/-- One or more decimal digits; returns them and the rest. -/
def takeDigits (cs : List Char) : List Char × List Char :=
  match cs with
  | [] => ([], [])
  | c :: rest =>
    if c.isDigit then
      let r := takeDigits rest
      (c :: r.1, r.2)
    else ([], cs)

/-- Parse a JSON number (sign already included in the input), returning its lexeme,
whether its mantissa is syntactically zero, and the rest.  `JSON.parse` forbids
leading zeros, requires at least one digit, and requires digits after `.` and after an
exponent marker. -/
def parseNumber (cs : List Char) : Option ((Bool × String) × List Char) :=
  let (neg, cs1) :=
    match cs with
    | '-' :: rest => (true, rest)
    | _ => (false, cs)
  match cs1 with
  | [] => none
  | c :: _ =>
    if !c.isDigit then none
    else
      let (intPart, cs2) := takeDigits cs1
      if intPart.length ≥ 2 ∧ intPart.headD '0' = '0' then none
      else
        let (fracPart, cs3) :=
          match cs2 with
          | '.' :: rest =>
            let (ds, r) := takeDigits rest
            if ds = [] then ([], cs2) else ('.' :: ds, r)
          | _ => ([], cs2)
        if cs3 ≠ cs2 ∧ fracPart = [] then none
        else
          match cs2 with
          | '.' :: rest =>
            if (takeDigits rest).1 = [] then none
            else finishNumber neg intPart fracPart cs3
          | _ => finishNumber neg intPart fracPart cs3
where
  /-- Handle the optional exponent and assemble the lexeme. -/
  finishNumber (neg : Bool) (intPart fracPart : List Char) (cs : List Char) :
      Option ((Bool × String) × List Char) :=
    let mantissa := intPart ++ fracPart
    let isZero := mantissa.all (fun c => c = '0' ∨ c = '.')
    let mk (expPart : List Char) (rest : List Char) :=
      some ((isZero, ⟨(if neg then ['-'] else []) ++ intPart ++ fracPart ++ expPart⟩), rest)
    match cs with
    | 'e' :: rest => finishExp isZero neg intPart fracPart 'e' rest
    | 'E' :: rest => finishExp isZero neg intPart fracPart 'E' rest
    | _ => mk [] cs
  /-- Parse the exponent digits after an `e`/`E` marker. -/
  finishExp (isZero neg : Bool) (intPart fracPart : List Char) (marker : Char)
      (cs : List Char) : Option ((Bool × String) × List Char) :=
    let (sign, cs1) :=
      match cs with
      | '+' :: rest => (['+'], rest)
      | '-' :: rest => (['-'], rest)
      | _ => (([] : List Char), cs)
    let (ds, cs2) := takeDigits cs1
    if ds = [] then none
    else
      some ((isZero,
        ⟨(if neg then ['-'] else []) ++ intPart ++ fracPart ++ marker :: sign ++ ds⟩), cs2)

/-- Whether the input starts with the given keyword. -/
def dropKeyword (kw : List Char) (cs : List Char) : Option (List Char) :=
  match kw, cs with
  | [], _ => some cs
  | k :: kt, c :: ct => if c = k then dropKeyword kt ct else none
  | _ :: _, [] => none

mutual

/-- Parse one JSON value from the input (leading whitespace allowed). -/
def parseValue (fuel : Nat) (cs : List Char) : Option (Json × List Char) :=
  match fuel with
  | 0 => none
  | fuel + 1 =>
    match skipWs cs with
    | [] => none
    | c :: rest =>
      if c = '"' then (parseStringBody rest).map (fun r => (Json.str ⟨r.1⟩, r.2))
      else if c = '[' then
        match skipWs rest with
        | [] => none
        | d :: rest2 =>
          if d = ']' then some (Json.arr [], rest2)
          else (parseElems fuel (skipWs rest)).map (fun r => (Json.arr r.1, r.2))
      else if c = lbrace then
        match skipWs rest with
        | [] => none
        | d :: _ =>
          if d = rbrace then some (Json.obj [], (skipWs rest).tail)
          else (parseMembers fuel (skipWs rest)).map (fun r => (Json.obj r.1, r.2))
      else if c = 'n' then (dropKeyword ['u', 'l', 'l'] rest).map (fun r => (Json.null, r))
      else if c = 't' then (dropKeyword ['r', 'u', 'e'] rest).map (fun r => (Json.bool true, r))
      else if c = 'f' then
        (dropKeyword ['a', 'l', 's', 'e'] rest).map (fun r => (Json.bool false, r))
      else (parseNumber (c :: rest)).map (fun r => (Json.num r.1.1 r.1.2, r.2))

/-- Parse a non-empty comma-separated list of array elements and the closing `]`. -/
def parseElems (fuel : Nat) (cs : List Char) : Option (List Json × List Char) :=
  match fuel with
  | 0 => none
  | fuel + 1 =>
    match parseValue fuel cs with
    | none => none
    | some (v, rest) =>
      match skipWs rest with
      | [] => none
      | d :: rest2 =>
        if d = ',' then (parseElems fuel rest2).map (fun r => (v :: r.1, r.2))
        else if d = ']' then some ([v], rest2)
        else none

/-- Parse a non-empty comma-separated list of object members and the closing brace. -/
def parseMembers (fuel : Nat) (cs : List Char) :
    Option (List (String × Json) × List Char) :=
  match fuel with
  | 0 => none
  | fuel + 1 =>
    match skipWs cs with
    | [] => none
    | c :: rest =>
      if c = '"' then
        match parseStringBody rest with
        | none => none
        | some (key, rest2) =>
          match skipWs rest2 with
          | [] => none
          | d :: rest3 =>
            if d = ':' then
              match parseValue fuel rest3 with
              | none => none
              | some (v, rest4) =>
                match skipWs rest4 with
                | [] => none
                | e :: rest5 =>
                  if e = ',' then
                    (parseMembers fuel rest5).map (fun r => ((⟨key⟩, v) :: r.1, r.2))
                  else if e = rbrace then some ([(⟨key⟩, v)], rest5)
                  else none
            else none
      else none

end

/-- `JSON.parse`: parse a whole string as a single JSON value; fails (in JavaScript,
throws a `SyntaxError`) if nothing parses or input remains beyond trailing
whitespace. -/
def parseJsonStr (s : String) : Option Json :=
  match parseValue (s.length + 1) s.data with
  | none => none
  | some (v, rest) => if skipWs rest = [] then some v else none

/-! ## Base64 (`btoa` / `atob`)

`btoa` is defined on strings whose code points are all at most 255 and throws an
`InvalidCharacterError` otherwise (the restriction behind claim C10).  `atob`
implements forgiving-base64 decoding: ASCII whitespace is stripped, `=` padding is
accepted at the end of the final quantum, a leftover length of 1 is an error, and
leftover sub-byte bits are discarded. -/

/-- The base64 alphabet: index `0`–`63` to character. -/
def b64Char (n : Nat) : Char :=
  if n < 26 then Char.ofNat (65 + n)
  else if n < 52 then Char.ofNat (97 + (n - 26))
  else if n < 62 then Char.ofNat (48 + (n - 52))
  else if n = 62 then '+'
  else '/'

/-- Inverse of the base64 alphabet. -/
def b64Val (c : Char) : Option Nat :=
  if 65 ≤ c.toNat ∧ c.toNat ≤ 90 then some (c.toNat - 65)
  else if 97 ≤ c.toNat ∧ c.toNat ≤ 122 then some (c.toNat - 97 + 26)
  else if 48 ≤ c.toNat ∧ c.toNat ≤ 57 then some (c.toNat - 48 + 52)
  else if c = '+' then some 62
  else if c = '/' then some 63
  else none

/-- Base64-encode a byte list, three bytes giving four characters, with `=` padding on
a final quantum of one or two bytes. -/
def btoaBytes (bs : List Nat) : List Char :=
  match bs with
  | [] => []
  | [b1] => [b64Char (b1 / 4), b64Char (b1 % 4 * 16), '=', '=']
  | [b1, b2] => [b64Char (b1 / 4), b64Char (b1 % 4 * 16 + b2 / 16), b64Char (b2 % 16 * 4), '=']
  | b1 :: b2 :: b3 :: rest =>
    b64Char (b1 / 4) :: b64Char (b1 % 4 * 16 + b2 / 16) ::
      b64Char (b2 % 16 * 4 + b3 / 64) :: b64Char (b3 % 64) :: btoaBytes rest

/-- `window.btoa`: errors when some code point exceeds 255, otherwise base64 of the
code points read as bytes. -/
def btoaS (s : String) : Except String String :=
  if s.data.all (fun c => c.toNat ≤ 255) then
    Except.ok ⟨btoaBytes (s.data.map Char.toNat)⟩
  else Except.error "InvalidCharacterError"

/-- ASCII whitespace, stripped by forgiving-base64. -/
def isAsciiWs (c : Char) : Bool :=
  c = ' ' || c = '\t' || c = '\n' || c = '\r' || c = Char.ofNat 12

/-- Decode base64 quanta.  Padding `=` is handled when it closes the final quantum;
everywhere else `=` is not in the alphabet and errors out, as does a final quantum of
a single character. -/
def atobCore (cs : List Char) : Except String (List Nat) :=
  match cs with
  | [] => Except.ok []
  | [_] => Except.error "InvalidCharacterError"
  | [c1, c2] =>
    match b64Val c1, b64Val c2 with
    | some d1, some d2 => Except.ok [d1 * 4 + d2 / 16]
    | _, _ => Except.error "InvalidCharacterError"
  | [c1, c2, c3] =>
    match b64Val c1, b64Val c2, b64Val c3 with
    | some d1, some d2, some d3 => Except.ok [d1 * 4 + d2 / 16, d2 % 16 * 16 + d3 / 4]
    | _, _, _ => Except.error "InvalidCharacterError"
  | c1 :: c2 :: c3 :: c4 :: rest =>
    if rest = [] ∧ c4 = '=' then
      if c3 = '=' then
        match b64Val c1, b64Val c2 with
        | some d1, some d2 => Except.ok [d1 * 4 + d2 / 16]
        | _, _ => Except.error "InvalidCharacterError"
      else
        match b64Val c1, b64Val c2, b64Val c3 with
        | some d1, some d2, some d3 => Except.ok [d1 * 4 + d2 / 16, d2 % 16 * 16 + d3 / 4]
        | _, _, _ => Except.error "InvalidCharacterError"
    else
      match b64Val c1, b64Val c2, b64Val c3, b64Val c4 with
      | some d1, some d2, some d3, some d4 =>
        (atobCore rest).map
          (fun bs => (d1 * 4 + d2 / 16) :: (d2 % 16 * 16 + d3 / 4) :: (d3 % 4 * 64 + d4) :: bs)
      | _, _, _, _ => Except.error "InvalidCharacterError"

/-- `window.atob`. -/
def atobS (s : String) : Except String String :=
  (atobCore (s.data.filter (fun c => !isAsciiWs c))).map
    (fun bs => ⟨bs.map Char.ofNat⟩)

/-! ## Percent-encoding (`encodeURIComponent` / `decodeURIComponent`)

`encodeURIComponent` leaves `A`–`Z`, `a`–`z`, `0`–`9` and `-_.!~*'()` intact and
percent-encodes the UTF-8 bytes of every other character.  `decodeURIComponent` is
modelled by turning the input into a byte sequence (each `%XX` contributing its byte,
every other character its UTF-8 bytes) and decoding that sequence as UTF-8; it errors
on a malformed `%` escape or invalid UTF-8, as the JavaScript builtin throws a
`URIError`. -/

/-- UTF-8 encoding of one character. -/
def utf8EncodeChar (c : Char) : List Nat :=
  let n := c.toNat
  if n < 128 then [n]
  else if n < 2048 then [192 + n / 64, 128 + n % 64]
  else if n < 65536 then [224 + n / 4096, 128 + n / 64 % 64, 128 + n % 64]
  else [240 + n / 262144, 128 + n / 4096 % 64, 128 + n / 64 % 64, 128 + n % 64]

/-- Decode one multi-byte UTF-8 sequence whose lead byte is `b`, returning the code
point and the number of continuation bytes consumed, with continuation, overlong,
surrogate and range checks. -/
def utf8Multi (b : Nat) (rest : List Nat) : Option (Nat × Nat) :=
  if b < 194 then none
  else if b < 224 then
    match rest with
    | b2 :: _ =>
      if 128 ≤ b2 ∧ b2 < 192 then some ((b - 192) * 64 + (b2 - 128), 1) else none
    | _ => none
  else if b < 240 then
    match rest with
    | b2 :: b3 :: _ =>
      if (128 ≤ b2 ∧ b2 < 192) ∧ (128 ≤ b3 ∧ b3 < 192) then
        let n := (b - 224) * 4096 + (b2 - 128) * 64 + (b3 - 128)
        if n < 2048 ∨ (55296 ≤ n ∧ n ≤ 57343) then none else some (n, 2)
      else none
    | _ => none
  else if b < 245 then
    match rest with
    | b2 :: b3 :: b4 :: _ =>
      if (128 ≤ b2 ∧ b2 < 192) ∧ (128 ≤ b3 ∧ b3 < 192) ∧ (128 ≤ b4 ∧ b4 < 192) then
        let n := (b - 240) * 262144 + (b2 - 128) * 4096 + (b3 - 128) * 64 + (b4 - 128)
        if n < 65536 ∨ 1114111 < n then none else some (n, 3)
      else none
    | _ => none
  else none

/-- UTF-8 decoding of a byte sequence, with an explicit bound on the number of
decoded sequences.  Every step consumes at least one byte, so a budget of the byte
count is always enough; the budget only makes the recursion structural. -/
def utf8DecodeFuel (fuel : Nat) (bs : List Nat) : Option (List Char) :=
  match bs with
  | [] => some []
  | b :: rest =>
    match fuel with
    | 0 => none
    | fuel + 1 =>
      if b < 128 then (utf8DecodeFuel fuel rest).map (fun cs => Char.ofNat b :: cs)
      else
        match utf8Multi b rest with
        | none => none
        | some (n, k) =>
          (utf8DecodeFuel fuel (rest.drop k)).map (fun cs => Char.ofNat n :: cs)

/-- UTF-8 decoding of a byte sequence. -/
def utf8Decode (bs : List Nat) : Option (List Char) :=
  utf8DecodeFuel bs.length bs

/-- Characters `encodeURIComponent` leaves unescaped. -/
def isUriUnreserved (c : Char) : Bool :=
  c.isAlpha || c.isDigit ||
    c = '-' || c = '_' || c = '.' || c = '!' || c = '~' || c = '*' ||
    c = Char.ofNat 39 || c = '(' || c = ')'

/-- Uppercase hexadecimal digit for `n < 16` (percent escapes use uppercase). -/
def hexDigitU (n : Nat) : Char :=
  if n < 10 then Char.ofNat (48 + n) else Char.ofNat (55 + n)

/-- `encodeURIComponent`. -/
def encodeURIComponentS (s : String) : String :=
  ⟨s.data.flatMap (fun c =>
    if isUriUnreserved c then [c]
    else (utf8EncodeChar c).flatMap (fun b => ['%', hexDigitU (b / 16), hexDigitU (b % 16)]))⟩

/-- Turn a percent-encoded character list into bytes; errors on malformed escapes. -/
def percentDecodeBytes (cs : List Char) : Except String (List Nat) :=
  match cs with
  | [] => Except.ok []
  | '%' :: rest =>
    match rest with
    | h1 :: h2 :: rest2 =>
      match hexVal h1, hexVal h2 with
      | some a, some b => (percentDecodeBytes rest2).map (fun bs => (a * 16 + b) :: bs)
      | _, _ => Except.error "URIError"
    | _ => Except.error "URIError"
  | c :: rest => (percentDecodeBytes rest).map (fun bs => utf8EncodeChar c ++ bs)

/-- `decodeURIComponent`. -/
def decodeURIComponentS (s : String) : Except String String :=
  match percentDecodeBytes s.data with
  | Except.error e => Except.error e
  | Except.ok bs =>
    match utf8Decode bs with
    | none => Except.error "URIError"
    | some cs => Except.ok ⟨cs⟩

/-! ## The profile codec

Encoding (`page.tsx`, form `onSubmit`): the submitted form data — one entry per named
form control, in document order, with one `race` entry per checked checkbox and the
hidden inputs `interest` / `disabilities` / `medical-conditions` / `location` holding
the JSON-stringified multi-select state — is collapsed with `Object.fromEntries`
(later entries overwrite earlier ones in place), four fields are then reassigned, and
the JSON-stringified object is base64- and percent-encoded.

Decoding (`results/page.tsx`): `decodeUserProfile` percent-decodes, base64-decodes
and JSON-parses the token inside one try/catch that maps every failure to `null`;
each multi-value field goes through `safeParseArray`. -/

/-- JavaScript `s.split(",").map(trim).filter(Boolean)`. -/
def splitCommaAux (cs : List Char) : List (List Char) :=
  match cs with
  | [] => [[]]
  | c :: rest =>
    match splitCommaAux rest with
    | [] => [[]]
    | acc :: others => if c = ',' then [] :: acc :: others else (c :: acc) :: others

/-- The whitespace recognised by JavaScript `String.prototype.trim`
(ASCII whitespace, no-break space and the BOM). -/
def isJsTrimWs (c : Char) : Bool :=
  c = ' ' || c = Char.ofNat 9 || c = Char.ofNat 10 || c = Char.ofNat 11 ||
    c = Char.ofNat 12 || c = Char.ofNat 13 || c = Char.ofNat 160 || c = Char.ofNat 0xFEFF

def jsTrim (cs : List Char) : List Char :=
  ((cs.dropWhile isJsTrimWs).reverse.dropWhile isJsTrimWs).reverse

def splitTrim (s : String) : List String :=
  ((splitCommaAux s.data).map (fun cs => String.mk (jsTrim cs))).filter (fun t => t ≠ "")

/-- JavaScript `s.trim()`. -/
def strTrim (s : String) : String :=
  ⟨jsTrim s.data⟩

/-- JavaScript `s.split(",")`. -/
def strSplitComma (s : String) : List String :=
  (splitCommaAux s.data).map (fun cs => String.mk cs)

/-- Keep the strings of a JavaScript array, as `filter(item => typeof item === "string")`. -/
def filterStrings (xs : List Json) : List String :=
  xs.filterMap (fun v => match v with | Json.str s => some s | _ => none)

/-- `safeParseArray` (`results/page.tsx` lines 61–76).  `none` models a missing
(`undefined`) field.  On a truthy value that is neither an array nor a string the
JavaScript original ends in a thrown `TypeError` (the `catch` block calls
`value.split` on a non-string); on a string it JSON-parses and recurses on success or
comma-splits on failure.  Recursion through nested string quoting strictly shortens
the string, so in JavaScript the recursion depth is bounded by the input length; the
fuel models the engine's call-stack bound, whose exhaustion is a thrown
`RangeError`. -/
def safeParseArray (fuel : Nat) (value : Option Json) : Except String (List String) :=
  match value with
  | none => Except.ok []
  | some v =>
    if !jsTruthy v then Except.ok []
    else
      match v with
      | Json.arr xs => Except.ok (filterStrings xs)
      | Json.str s =>
        (match parseJsonStr s with
         | some w =>
           (match fuel with
            | 0 => Except.error "RangeError"
            | fuel + 1 => safeParseArray fuel (some w))
         | none => Except.ok (splitTrim s))
      | _ => Except.error "TypeError"

/-- The call-stack budget supplied to `safeParseArray` by the decoder; any bound large
enough for the recursion depths the theorems below exercise (at most 2) plays the part
of the JavaScript engine's stack limit. -/
def safeParseFuel : Nat := 10000

/-- `decodeBase64` (`results/page.tsx` lines 78–89), in the browser (`window.atob`)
branch. -/
def decodeBase64 (value : String) : Except String String :=
  atobS value

/-- The profile produced by `decodeUserProfile`: scalar fields carry whatever JSON
value (if any) sat under the corresponding key, multi-value fields are the
`safeParseArray` output. -/
structure AudienceProfile where
  name : Option Json
  gender : Option Json
  homeless : Option Json
  race : List String
  interests : List String
  disabilities : List String
  medicalConditions : List String
  location : Option Json

/-- The body of `decodeUserProfile`'s `try` block: each stage may throw. -/
def decodeUserProfileTry (encoded : String) : Except String AudienceProfile :=
  (decodeURIComponentS encoded).bind fun urlDecoded =>
  (decodeBase64 urlDecoded).bind fun decodedString =>
  (match parseJsonStr decodedString with
    | some v => Except.ok v
    | none => Except.error "SyntaxError").bind fun parsed =>
  (safeParseArray safeParseFuel (jsGet parsed "race")).bind fun race =>
  (safeParseArray safeParseFuel (jsGet parsed "interest")).bind fun interests =>
  (safeParseArray safeParseFuel (jsGet parsed "disabilities")).bind fun disabilities =>
  (safeParseArray safeParseFuel (jsGet parsed "medical-conditions")).bind
    fun medicalConditions =>
  Except.ok
    { name := jsGet parsed "name"
      gender := jsGet parsed "gender"
      homeless := jsGet parsed "homeless"
      race, interests, disabilities, medicalConditions
      location := jsGet parsed "location" }

/-- `decodeUserProfile` (`results/page.tsx` lines 91–118): a falsy `data` parameter
yields `null` immediately, and the surrounding try/catch converts every thrown error
to `null`.  In the running application the URL layer has already percent-decoded the
query value once; because base64 output contains no `%`, that earlier pass composed
with the function's own `decodeURIComponent` equals a single percent-decode of the
token produced by the encoder, which is what this model applies. -/
def decodeUserProfile (searchData : Option String) : Option AudienceProfile :=
  match searchData with
  | none => none
  | some encoded =>
    if encoded = "" then none
    else
      match decodeUserProfileTry encoded with
      | Except.ok p => some p
      | Except.error _ => none

/-- The profile state held by the form page at submission time. -/
structure Profile where
  name : String
  gender : String
  homeless : String
  race : List String
  interests : List String
  disabilities : List String
  medicalConditions : List String
  location : String

/-- The `race` checkbox values offered by the form. -/
def raceOptions : List String :=
  ["american-indian", "asian", "black", "hispanic", "native-hawaiian", "white",
   "other", "prefer-not-to-say"]

/-- One assignment `acc[k] = v` on a JavaScript object represented as an ordered field
list: overwrite in place if the key exists, append otherwise. -/
def insertEntry (acc : List (String × String)) (k v : String) : List (String × String) :=
  if acc.any (fun p => p.1 = k) then acc.map (fun p => if p.1 = k then (k, v) else p)
  else acc ++ [(k, v)]

/-- `Object.fromEntries`. -/
def fromEntries (l : List (String × String)) : List (String × String) :=
  l.foldl (fun acc p => insertEntry acc p.1 p.2) []

/-- `formData.entries()` for the submitted form, in document order: the text input,
the checked `gender` and `homeless` radios, one entry per checked `race` checkbox, and
the four hidden inputs. -/
def formEntries (P : Profile) : List (String × String) :=
  [("name", P.name), ("gender", P.gender), ("homeless", P.homeless)]
    ++ P.race.map (fun r => ("race", r))
    ++ [("interest", stringifyStrArr P.interests),
        ("disabilities", stringifyStrArr P.disabilities),
        ("medical-conditions", stringifyStrArr P.medicalConditions),
        ("location", P.location)]

/-- The `data` object built by the submit handler (`page.tsx` lines 560–564):
`Object.fromEntries(formData.entries())` followed by the four reassignments. -/
def encodeData (P : Profile) : List (String × String) :=
  let d0 := fromEntries (formEntries P)
  let d1 := insertEntry d0 "interests" (stringifyStrArr P.interests)
  let d2 := insertEntry d1 "disabilities" (stringifyStrArr P.disabilities)
  let d3 := insertEntry d2 "medical-conditions" (stringifyStrArr P.medicalConditions)
  insertEntry d3 "location" P.location

/-- The transport token (`page.tsx` lines 566–568):
`encodeURIComponent(btoa(JSON.stringify(data)))`.  `btoa` throws on code points above
255, so encoding is partial. -/
def encodeProfile (P : Profile) : Except String String :=
  (btoaS (stringifyFlatObj (encodeData P))).bind fun encoded =>
    Except.ok (encodeURIComponentS encoded)

/-! ## Shared pieces of the three backend routes -/

/-- JavaScript string coercion of a JSON value where the repository's code
concatenates or joins it (`String(v)`).  Arrays and objects coerce through
`toString`, whose result no theorem below depends on; they are mapped to `""`. -/
def jsCoerceString (v : Json) : String :=
  match v with
  | Json.str s => s
  | Json.num _ lexeme => lexeme
  | Json.bool b => if b then "true" else "false"
  | Json.null => "null"
  | Json.arr _ => ""
  | Json.obj _ => ""

/-- Nullish coalescing `v ?? d` for a possibly-absent JSON value: `null` and
`undefined` fall through to the default. -/
def jsCoalesce (v : Option Json) : Option Json :=
  match v with
  | some Json.null => none
  | some w => some w
  | none => none

/-- `v ?? d`. -/
def orD (v : Option Json) (d : Json) : Json :=
  (jsCoalesce v).getD d

/-- `a ?? b ?? d`. -/
def orD2 (a b : Option Json) (d : Json) : Json :=
  match jsCoalesce a with
  | some w => w
  | none => orD b d

/-- The result of one `fetch` of the generative API as a route handler observes it:
the promise rejects (network failure), or a response arrives with its `ok` flag and
the outcome of `response.json()`. -/
inductive Upstream where
  | reject (msg : String)
  | resp (ok : Bool) (jsonBody : Except Unit Json)

/-- `part?.text ?? ""`, coerced to a string by the subsequent `join`. -/
def partText (p : Json) : String :=
  match jsCoalesce (jsGet p "text") with
  | some v => jsCoerceString v
  | none => ""

/-- The per-candidate body of `extractGeminiText`:
`candidate?.content?.parts?.map(part => part?.text ?? "").join("\n").trim()`.
`Except.error` marks the thrown `TypeError` of calling `.map` on a truthy
non-array `parts`; a nullish link in the optional chain short-circuits to
`undefined` (`Except.ok none`). -/
def candidateText (cand : Json) : Except Unit (Option String) :=
  match jsGet cand "content" with
  | none => Except.ok none
  | some Json.null => Except.ok none
  | some content =>
    match jsGet content "parts" with
    | none => Except.ok none
    | some Json.null => Except.ok none
    | some (Json.arr ps) =>
      Except.ok (some (String.intercalate "\n" (ps.map partText)).trim)
    | some _ => Except.error ()

/-- The loop of `extractGeminiText`: first candidate with non-empty extracted text;
a thrown `TypeError` is caught by the function's own try/catch and yields `null`. -/
def extractLoop (cands : List Json) : Option String :=
  match cands with
  | [] => none
  | cand :: rest =>
    match candidateText cand with
    | Except.error _ => none
    | Except.ok none => extractLoop rest
    | Except.ok (some t) => if t ≠ "" then some t else extractLoop rest

/-- `extractGeminiText` (identical copies live in all three route files):
`data?.candidates || []`, then the candidate loop, with every thrown error caught and
converted to `null`.  A truthy non-array `candidates` makes `for…of` throw, which the
catch also converts to `null`. -/
def extractGeminiText (data : Json) : Option String :=
  let candidatesV := jsGet data "candidates"
  if !jsTruthyOpt candidatesV then none
  else
    match candidatesV with
    | some (Json.arr cands) => extractLoop cands
    | _ => none

/-- Index of the first occurrence of a character. -/
def firstIdxOf (cs : List Char) (c : Char) : Option Nat :=
  match cs with
  | [] => none
  | d :: rest => if d = c then some 0 else (firstIdxOf rest c).map (· + 1)

/-- Index of the last occurrence of a character. -/
def lastIdxOf (cs : List Char) (c : Char) : Option Nat :=
  match cs with
  | [] => none
  | d :: rest =>
    match lastIdxOf rest c with
    | some i => some (i + 1)
    | none => if d = c then some 0 else none

/-- `content.slice(i, j + 1)`. -/
def sliceIncl (cs : List Char) (i j : Nat) : List Char :=
  (cs.drop i).take (j + 1 - i)

/-- `parseModelResponse` as the training-plan and simplify-job routes define it
(`api/training-plan/route.ts` lines 206–223): direct `JSON.parse`, and on failure the
slice from the first `{` to the last `}`; `null` when both fail or when the content is
missing/empty. -/
def parseModelResponseObj (content : Option String) : Option Json :=
  match content with
  | none => none
  | some c =>
    if c = "" then none
    else
      match parseJsonStr c with
      | some v => some v
      | none =>
        match firstIdxOf c.data lbrace, lastIdxOf c.data rbrace with
        | some i, some j => parseJsonStr ⟨sliceIncl c.data i j⟩
        | _, _ => none

/-- The backquote character (U+0060). -/
def backquote : Char := Char.ofNat 96

/-- Whitespace as the `\s` character class of the fence regular expression matches it
(the ASCII part; no theorem exercises the non-ASCII members of `\s`). -/
def isRegexWs (c : Char) : Bool :=
  c = ' ' || c = '\t' || c = '\n' || c = '\r' || c = Char.ofNat 11 || c = Char.ofNat 12

/-- Index of the first occurrence of three consecutive backquotes. -/
def findTriple (cs : List Char) : Option Nat :=
  match cs with
  | a :: b :: d :: rest =>
    if a = backquote ∧ b = backquote ∧ d = backquote then some 0
    else (findTriple (b :: d :: rest)).map (· + 1)
  | _ => none

/-- The capture group of `content.match(/```(?:json)?\s*([\s\S]*?)\s*```/)`: after the
first fence (with an optional `json` tag) and greedy leading whitespace, the shortest
stretch that a whitespace run and a closing fence can follow — i.e. everything up to
the next fence, trimmed of trailing whitespace. -/
def findFence (cs : List Char) : Option (List Char) :=
  match findTriple cs with
  | none => none
  | some i =>
    let afterOpen := cs.drop (i + 3)
    let afterTag :=
      match afterOpen with
      | 'j' :: 's' :: 'o' :: 'n' :: rest => rest
      | _ => afterOpen
    let body := afterTag.dropWhile isRegexWs
    match findTriple body with
    | none => none
    | some k => some ((body.take k).reverse.dropWhile isRegexWs).reverse

namespace SearchJobs

/-- `parseModelResponse` (`api/search-jobs/route.ts` lines 54–80).  The entire body
lives in one `try` whose `catch` returns `[]`; the fenced-code-block and
bracket-slice branches are only reached when the direct `JSON.parse` of the whole
content *succeeded* but produced neither an array nor an object with a `jobs` array.
A parse success in those branches returns whatever value parsed (the source annotates
it as `JobListing[]` but does not check). -/
def parseModelResponse (content : Option String) : Json :=
  match content with
  | none => Json.arr []
  | some c =>
    if c = "" then Json.arr []
    else
      match parseJsonStr c with
      | none => Json.arr []
      | some parsed =>
        match parsed with
        | Json.arr l => Json.arr l
        | _ =>
          match jsGet parsed "jobs" with
          | some (Json.arr l) => Json.arr l
          | _ =>
            match findFence c.data with
            | some group =>
              (match parseJsonStr ⟨group⟩ with
               | some w => w
               | none => Json.arr [])
            | none =>
              match firstIdxOf c.data '[', lastIdxOf c.data ']' with
              | some i, some j =>
                (match parseJsonStr ⟨sliceIncl c.data i j⟩ with
                 | some w => w
                 | none => Json.arr [])
              | _, _ => Json.arr []

/-- A job listing (`api/search-jobs/route.ts` type `JobListing`). -/
structure JobListing where
  id : String
  title : String
  employer : String
  description : String
  pay : String
  location : String

/-- `extractCityAndState` (`api/search-jobs/route.ts` lines 27–32):
`parts[0]?.trim() || location.trim()` and `parts[1]?.trim() || ""`. -/
def extractCityAndState (location : String) : String × String :=
  let parts := strSplitComma location
  let city :=
    if strTrim (parts.headD "") = "" then strTrim location else strTrim (parts.headD "")
  let state :=
    match parts with
    | _ :: p1 :: _ => strTrim p1
    | _ => ""
  (city, state)

/-- Map over a list together with the element index. -/
def mapWithIndex (f : Nat → α → β) : Nat → List α → List β
  | _, [] => []
  | i, a :: t => f i a :: mapWithIndex f (i + 1) t

/-- The ten hardcoded accessible jobs (`generateHardcodedJobs` base set), their
placeholder ids parameterized by `Date.now()`. -/
def baseJobs (locationParam : String) (now : Nat) : List JobListing :=
  [{ id := "job-1-" ++ toString now,
     title := "Customer Service Representative",
     employer := "Community Support Services",
     description := "Answer phone calls and assist customers with inquiries. This position offers flexible scheduling and can accommodate various physical needs. Training provided on-site.",
     pay := "$16/hr · 20-30 hrs/week",
     location := locationParam },
   { id := "job-2-" ++ toString now,
     title := "Data Entry Clerk",
     employer := "Local Business Solutions",
     description := "Enter data into computer systems from paper documents. This is a seated position with minimal physical requirements. Perfect for those who prefer desk work.",
     pay := "$15/hr · Full-time",
     location := locationParam },
   { id := "job-3-" ++ toString now,
     title := "Retail Associate",
     employer := "Neighborhood Store",
     description := "Help customers find products and process transactions at the register. Flexible hours available. Accommodations can be made for standing or mobility needs.",
     pay := "$14-17/hr · Part-time or Full-time",
     location := locationParam },
   { id := "job-4-" ++ toString now,
     title := "Security Guard",
     employer := "SafeGuard Services",
     description := "Monitor premises and ensure safety. Positions available for both standing and seated roles. Training and certification assistance provided.",
     pay := "$18/hr · Various shifts",
     location := locationParam },
   { id := "job-5-" ++ toString now,
     title := "Janitorial Staff",
     employer := "CleanWorks Inc.",
     description := "Maintain cleanliness of office buildings. Flexible scheduling with both day and evening shifts. Accommodations available for physical limitations.",
     pay := "$15-18/hr · Part-time",
     location := locationParam },
   { id := "job-6-" ++ toString now,
     title := "Receptionist",
     employer := "Medical Office Group",
     description := "Greet visitors, answer phones, and schedule appointments. Comfortable seated position with friendly work environment. No heavy lifting required.",
     pay := "$17/hr · Full-time",
     location := locationParam },
   { id := "job-7-" ++ toString now,
     title := "Warehouse Associate",
     employer := "Distribution Center",
     description := "Sort and organize inventory. Both light-duty and standard positions available. Accommodations made for physical needs and scheduling preferences.",
     pay := "$16-19/hr · Full-time",
     location := locationParam },
   { id := "job-8-" ++ toString now,
     title := "Delivery Driver Helper",
     employer := "Local Delivery Service",
     description := "Assist delivery drivers with loading and unloading packages. Flexible hours and routes. Can accommodate various physical capabilities.",
     pay := "$17/hr · Part-time",
     location := locationParam },
   { id := "job-9-" ++ toString now,
     title := "Remote Customer Support",
     employer := "Tech Support Solutions",
     description := "Provide technical support via phone and chat from home. Fully remote position with flexible hours. Perfect for those with mobility needs.",
     pay := "$16/hr · Full-time or Part-time",
     location := locationParam },
   { id := "job-10-" ++ toString now,
     title := "Maintenance Helper",
     employer := "Property Management Co.",
     description := "Assist with light maintenance tasks around apartment buildings. Training provided. Accommodations available for physical limitations.",
     pay := "$18/hr · Full-time",
     location := locationParam }]

/-- `generateHardcodedJobs`: shuffle the base set (the `sort` with a random comparator
produces some permutation, supplied here as the `shuffle` parameter), keep five, and
give each a fresh id from its index, `Date.now()` and a `Math.random()` suffix. -/
def generateHardcodedJobs (location : String) (now : Nat) (rand : Nat → String)
    (shuffle : List JobListing → List JobListing) : List JobListing :=
  let cs := extractCityAndState location
  let locationParam := if cs.2 ≠ "" then cs.1 ++ ", " ++ cs.2 else cs.1
  let shuffled := shuffle (baseJobs locationParam now)
  mapWithIndex
    (fun i job =>
      { job with id := "job-" ++ toString (i + 1) ++ "-" ++ toString now ++ "-" ++ rand i })
    0 (shuffled.take 5)

/-- The per-record normalization of `generateJobsWithGemini`: every missing field is
backfilled (`job.id || generated`, `job.title || "Job Opportunity"`, …).  A truthy
non-string field value is kept by the source; this model keeps its string coercion,
which no theorem below inspects. -/
def normalizeJob (location : String) (now : Nat) (rand : Nat → String) (i : Nat)
    (j : Json) : JobListing :=
  let field (k : String) (d : String) : String :=
    match jsGet j k with
    | some v => if jsTruthy v then jsCoerceString v else d
    | none => d
  { id := field "id" ("job-" ++ toString i ++ "-" ++ toString now ++ "-" ++ rand i)
    title := field "title" "Job Opportunity"
    employer := field "employer" "Employer"
    description := field "description" "No description available."
    pay := field "pay" "Salary not specified"
    location := field "location" location }

/-- `generateJobsWithGemini` from the point where the response is observed: a
rejected fetch or a non-ok status throws, `response.json()` may throw, and mapping the
normalization over a non-array parse result throws a `TypeError`. -/
def generateJobsWithGemini (location : String) (now : Nat) (rand : Nat → String)
    (up : Upstream) : Except String (List JobListing) :=
  match up with
  | Upstream.reject msg => Except.error msg
  | Upstream.resp ok jsonBody =>
    if !ok then Except.error "Gemini API returned an error status"
    else
      match jsonBody with
      | Except.error _ => Except.error "SyntaxError"
      | Except.ok data =>
        match parseModelResponse (extractGeminiText data) with
        | Json.arr l => Except.ok (mapWithIndex (normalizeJob location now rand) 0 l)
        | _ => Except.error "TypeError"

/-- The id-based duplicate filter of the route's `POST`
(`index === self.findIndex(j => j.id === job.id)` keeps first occurrences). -/
def dedupeGo (seen : List String) : List JobListing → List JobListing
  | [] => []
  | j :: t => if seen.contains j.id then dedupeGo seen t else j :: dedupeGo (j.id :: seen) t

/-- Remove jobs whose id already occurred earlier in the list. -/
def dedupeById (jobs : List JobListing) : List JobListing :=
  dedupeGo [] jobs

/-- The response bodies the route can produce.  `crash` stands for the unhandled
exception thrown outside the route's `try` when a truthy non-string `location`
reaches `extractCityAndState` (the framework then answers 500). -/
inductive SearchResponse where
  | errorOnly (error : String)
  | errorJobs (error : String) (jobs : List JobListing)
  | jobsOk (jobs : List JobListing) (fallbackUsed : Bool)
  | crash

/-- `POST /api/search-jobs` (`route.ts` lines 356–438).  Hardcoded jobs are generated
first; with an API key configured the Gemini listings replace them when non-empty,
any Gemini error falling back to the hardcoded list; duplicates are removed by id and
at most five are returned.  Both success returns carry `fallbackUsed: false`. -/
def searchJobsPOST (body : Except Unit Json) (apiKey : Option String) (up : Upstream)
    (now : Nat) (rand randAI : Nat → String)
    (shuffle : List JobListing → List JobListing) : Nat × SearchResponse :=
  match body with
  | Except.error _ => (400, SearchResponse.errorOnly "Invalid JSON body.")
  | Except.ok payload =>
    let loc := jsGet payload "location"
    if !jsTruthyOpt loc then (400, SearchResponse.errorOnly "Location is required.")
    else
      match loc with
      | some (Json.str s) =>
        let cs := extractCityAndState s
        let locationParam := if cs.2 ≠ "" then cs.1 ++ ", " ++ cs.2 else cs.1
        let hard := generateHardcodedJobs locationParam now rand shuffle
        let jobs :=
          match apiKey with
          | none => hard
          | some _ =>
            match generateJobsWithGemini locationParam now randAI up with
            | Except.ok ai => if ai.length > 0 then ai else hard
            | Except.error _ => hard
        let uniqueJobs := dedupeById jobs
        if uniqueJobs.isEmpty then
          (200, SearchResponse.errorJobs
            "Unable to generate job listings. Please try again or contact support." [])
        else (200, SearchResponse.jobsOk (uniqueJobs.take 5) false)
      | _ => (500, SearchResponse.crash)

/-- The `fallbackUsed` field of a response body, when it has one. -/
def fallbackUsedOf (r : SearchResponse) : Option Bool :=
  match r with
  | SearchResponse.jobsOk _ fb => some fb
  | _ => none

end SearchJobs

/-- A 400 error payload `{ error: msg }`. -/
def errPayload (msg : String) : Json :=
  Json.obj [("error", Json.str msg)]

namespace SimplifyJob

/-- `FALLBACK_SIMPLIFIED_JOB` (simplify-job route, lines 530–551 of the results
bundle). -/
def FALLBACK_SIMPLIFIED_JOB : Json :=
  Json.obj
    [("jobTitle", Json.str "Community Support Assistant"),
     ("simplifiedDescription", Json.str "Help a neighborhood non-profit greet visitors, keep things tidy, and guide people to the right staff. The role is seated most of the day and allows short stretch breaks whenever you need them."),
     ("keyQualifications", Json.arr
       [Json.str "Friendly, patient communication style",
        Json.str "Comfort using a tablet checklist (training provided)",
        Json.str "Reliable attendance for a 4-hour weekday shift"]),
     ("accommodations", Json.arr
       [Json.str "Adjustable chair with lumbar support",
        Json.str "Frequent micro-breaks to manage pain or fatigue",
        Json.str "Clear written instructions for every shift task"]),
     ("trainingSuggestions", Json.arr
       [Json.str "Watch a 15-minute video on welcoming clients with trauma-informed language",
        Json.str "Practice basic tablet navigation using the provided tutorial mode",
        Json.str "Shadow another assistant for the first two shifts"]),
     ("tone", Json.str "encouraging"),
     ("provider", Json.str "fallback")]

/-- Whether the request body passes the route's validation:
`!payload?.jobDescription || typeof payload.jobDescription !== "string"` rejects
exactly those bodies whose `jobDescription` is not a non-empty string. -/
def validBody (payload : Json) : Bool :=
  match jsGet payload "jobDescription" with
  | some (Json.str s) => s ≠ ""
  | _ => false

/-- `POST /api/simplify-job` (results bundle lines 661–736): 400 on an unparsable
body or failed validation; the fallback record when no API key is configured; the
fallback record whenever the upstream fetch rejects, answers non-2xx, delivers an
unreadable body, or its completion text fails `parseModelResponse`; otherwise the
typed response assembled from the parsed completion with `provider: "gemini"`. -/
def simplifyPOST (body : Except Unit Json) (apiKey : Option String) (up : Upstream) :
    Nat × Json :=
  match body with
  | Except.error _ => (400, errPayload "Invalid JSON body.")
  | Except.ok payload =>
    if !validBody payload then (400, errPayload "jobDescription is required.")
    else
      match apiKey with
      | none => (200, FALLBACK_SIMPLIFIED_JOB)
      | some _ =>
        match up with
        | Upstream.reject _ => (200, FALLBACK_SIMPLIFIED_JOB)
        | Upstream.resp ok jsonBody =>
          if !ok then (200, FALLBACK_SIMPLIFIED_JOB)
          else
            match jsonBody with
            | Except.error _ => (200, FALLBACK_SIMPLIFIED_JOB)
            | Except.ok data =>
              match parseModelResponseObj (extractGeminiText data) with
              | none => (200, FALLBACK_SIMPLIFIED_JOB)
              | some parsed =>
                (200, Json.obj
                  [("jobTitle",
                    orD2 (jsGet parsed "jobTitle") (jsGet payload "jobTitle")
                      (Json.str "Job Opportunity")),
                   ("simplifiedDescription",
                    orD (jsGet parsed "simplifiedDescription") (Json.str "")),
                   ("keyQualifications",
                    orD (jsGet parsed "keyQualifications") (Json.arr [])),
                   ("accommodations",
                    orD (jsGet parsed "accommodations") (Json.arr [])),
                   ("trainingSuggestions",
                    orD (jsGet parsed "trainingSuggestions") (Json.arr [])),
                   ("tone", orD (jsGet parsed "tone") (Json.str "encouraging")),
                   ("provider", Json.str "gemini")])

end SimplifyJob

namespace TrainingPlan

/-- The summary of `FALLBACK_PLAN` (`api/training-plan/route.ts` lines 37–107). -/
def fallbackSummary : String :=
  "Focus on light-duty roles such as front desk support or retail greeter. Build confidence with people-facing tasks and refresh essential digital skills at a relaxed pace."

/-- The phases of `FALLBACK_PLAN`. -/
def fallbackPhases : Json :=
  Json.arr
    [Json.obj
      [("title", Json.str "Foundation & Confidence"),
       ("duration", Json.str "Week 1-2"),
       ("focus", Json.str "Rebuild routine, refresh customer service basics, and set attainable goals."),
       ("steps", Json.arr
         [Json.str "Spend 20 minutes per day on breathing or stretching to reduce stress.",
          Json.str "Complete a short online module on customer empathy and clear communication.",
          Json.str "Practice a friendly greeting script with a friend or mentor twice a week."]),
       ("resources", Json.arr
         [Json.obj
           [("title", Json.str "Coursera: Customer Service Fundamentals (audit option)"),
            ("url", Json.str "https://www.coursera.org/learn/customer-service-fundamentals"),
            ("cost", Json.str "Free audit")],
          Json.obj
           [("title", Json.str "YouTube: 10-Minute Chair Stretches"),
            ("url", Json.str "https://www.youtube.com/results?search_query=chair+stretches")]])],
     Json.obj
      [("title", Json.str "Job-Specific Skills"),
       ("duration", Json.str "Week 3-4"),
       ("focus", Json.str "Practice scheduling, note taking, and simple digital check-ins."),
       ("steps", Json.arr
         [Json.str "Use Google Calendar to plan two mock shifts each week.",
          Json.str "Shadow a volunteer coordinator or watch recordings of front desk workflows.",
          Json.str "Complete a short typing or data-entry drill every other day (10 minutes)."]),
       ("resources", Json.arr
         [Json.obj
           [("title", Json.str "GCF LearnFree: Google Workspace Basics"),
            ("url", Json.str "https://edu.gcfglobal.org/en/subjects/google/")],
          Json.obj
           [("title", Json.str "Keybr: Gentle typing practice"),
            ("url", Json.str "https://www.keybr.com/")]])],
     Json.obj
      [("title", Json.str "Interview & Placement"),
       ("duration", Json.str "Week 5"),
       ("focus", Json.str "Prepare simple talking points, practice disclosing accommodations, and line up opportunities."),
       ("steps", Json.arr
         [Json.str "Write a 2-minute story highlighting reliability and empathy.",
          Json.str "Role-play an interview with a coach focusing on accessibility needs.",
          Json.str "Apply to two community-based roles that match your preferred schedule."]),
       ("resources", Json.arr
         [Json.obj
           [("title", Json.str "Workability I: Interview prep workbook"),
            ("url", Json.str "https://www.dor.ca.gov/Home/Workability")]])]]

/-- The success metrics of `FALLBACK_PLAN`. -/
def fallbackMetrics : Json :=
  Json.arr
    [Json.str "Able to greet visitors confidently without relying on a script",
     Json.str "Completes mock check-in tasks in under 5 minutes",
     Json.str "Identifies at least two accommodations to request during onboarding"]

/-- The encouragement of `FALLBACK_PLAN`. -/
def fallbackEncouragement : String :=
  "Progress is steady and flexible—celebrate each small win and rest when needed. You\x27re building skills employers value every day."

/-- `FALLBACK_PLAN` as the JSON body the route answers with. -/
def FALLBACK_PLAN : Json :=
  Json.obj
    [("summary", Json.str fallbackSummary),
     ("phases", fallbackPhases),
     ("successMetrics", fallbackMetrics),
     ("encouragement", Json.str fallbackEncouragement),
     ("provider", Json.str "fallback")]

/-- `sanitizeArray` (`api/training-plan/route.ts` lines 109–126): like
`safeParseArray` but total — a value that is neither falsy, an array nor a string
yields `[]`.  The fuel bounds the recursion through nested string quoting exactly as
for `safeParseArray`; it is never exhausted on inputs whose nesting depth stays below
it, and the theorems below only exercise depth at most two. -/
def sanitizeArray (fuel : Nat) (value : Option Json) : List String :=
  match value with
  | none => []
  | some v =>
    if !jsTruthy v then []
    else
      match v with
      | Json.arr xs => filterStrings xs
      | Json.str s =>
        (match parseJsonStr s with
         | some w =>
           (match fuel with
            | 0 => []
            | fuel + 1 => sanitizeArray fuel (some w))
         | none => splitTrim s)
      | _ => []

/-- Whether the request body passes the route's validation:
`!payload?.jobTitle && !payload?.currentSkills` rejects exactly those bodies where
both fields are falsy. -/
def validBody (payload : Json) : Bool :=
  jsTruthyOpt (jsGet payload "jobTitle") || jsTruthyOpt (jsGet payload "currentSkills")

/-- `v?.length` truthiness for the `parsed.phases?.length ? … : …` test: only a
non-empty array or non-empty string has a truthy `length` (an object could carry its
own `length` field; no theorem exercises that corner and it is omitted). -/
def lengthTruthy (v : Option Json) : Bool :=
  match v with
  | some (Json.arr l) => l.length ≠ 0
  | some (Json.str s) => s.length ≠ 0
  | _ => false

/-- `v?.length === 0` for the `successMetrics` test. -/
def lengthEqZero (v : Option Json) : Bool :=
  match v with
  | some (Json.arr []) => true
  | some (Json.str "") => true
  | _ => false

/-- `POST /api/training-plan` (`route.ts` lines 225–301): 400 on an unparsable body
or when both `jobTitle` and `currentSkills` are falsy; `FALLBACK_PLAN` when no API
key is configured or on any upstream failure; otherwise the typed response with
per-field fallback backfill and `provider: "gemini"`. -/
def trainingPOST (body : Except Unit Json) (apiKey : Option String) (up : Upstream) :
    Nat × Json :=
  match body with
  | Except.error _ => (400, errPayload "Invalid JSON body.")
  | Except.ok payload =>
    if !validBody payload then
      (400, errPayload "Provide at least jobTitle or currentSkills.")
    else
      match apiKey with
      | none => (200, FALLBACK_PLAN)
      | some _ =>
        match up with
        | Upstream.reject _ => (200, FALLBACK_PLAN)
        | Upstream.resp ok jsonBody =>
          if !ok then (200, FALLBACK_PLAN)
          else
            match jsonBody with
            | Except.error _ => (200, FALLBACK_PLAN)
            | Except.ok data =>
              match parseModelResponseObj (extractGeminiText data) with
              | none => (200, FALLBACK_PLAN)
              | some parsed =>
                (200, Json.obj
                  [("summary", orD (jsGet parsed "summary") (Json.str fallbackSummary)),
                   ("phases",
                    if lengthTruthy (jsGet parsed "phases") then
                      (jsGet parsed "phases").getD (Json.arr [])
                    else fallbackPhases),
                   ("successMetrics",
                    if lengthEqZero (jsGet parsed "successMetrics") then fallbackMetrics
                    else orD (jsGet parsed "successMetrics") fallbackMetrics),
                   ("encouragement",
                    orD (jsGet parsed "encouragement") (Json.str fallbackEncouragement)),
                   ("provider", Json.str "gemini")])

end TrainingPlan

namespace Aggregator

/-- The inline fallback plan the results page substitutes when the training-plan
response has a non-ok status (`results/page.tsx` lines 226–248). -/
def CLIENT_NOTOK_PLAN : Json :=
  Json.obj
    [("summary", Json.str TrainingPlan.fallbackSummary),
     ("phases", Json.arr
       [Json.obj
         [("title", Json.str "Foundation & Confidence"),
          ("duration", Json.str "Week 1-2"),
          ("focus", Json.str "Rebuild routine, refresh customer service basics, and set attainable goals."),
          ("steps", Json.arr
            [Json.str "Spend 20 minutes per day on breathing or stretching to reduce stress.",
             Json.str "Complete a short online module on customer empathy and clear communication.",
             Json.str "Practice a friendly greeting script with a friend or mentor twice a week."]),
          ("resources", Json.arr
            [Json.obj
              [("title", Json.str "Coursera: Customer Service Fundamentals (audit option)"),
               ("url", Json.str "https://www.coursera.org/learn/customer-service-fundamentals"),
               ("cost", Json.str "Free audit")]])]]),
     ("successMetrics", Json.arr [Json.str "Able to greet visitors confidently"]),
     ("encouragement", Json.str "Progress is steady and flexible—celebrate each small win and rest when needed."),
     ("provider", Json.str "fallback")]

/-- The inline fallback plan the results page substitutes when the training-plan
fetch itself rejects (`results/page.tsx` lines 254–269). -/
def CLIENT_CATCH_PLAN : Json :=
  Json.obj
    [("summary", Json.str TrainingPlan.fallbackSummary),
     ("phases", Json.arr
       [Json.obj
         [("title", Json.str "Foundation & Confidence"),
          ("duration", Json.str "Week 1-2"),
          ("focus", Json.str "Rebuild routine, refresh customer service basics, and set attainable goals."),
          ("steps", Json.arr
            [Json.str "Spend 20 minutes per day on breathing or stretching to reduce stress.",
             Json.str "Complete a short online module on customer empathy and clear communication."]),
          ("resources", Json.arr [])]]),
     ("successMetrics", Json.arr [Json.str "Able to greet visitors confidently"]),
     ("encouragement", Json.str "Progress is steady and flexible—celebrate each small win and rest when needed."),
     ("provider", Json.str "fallback")]

/-- The simplify promise of one listing
(`fetch(...).then(res => { if (!res.ok) throw …; return res.json(); })`): there is
no per-call catch, so a rejected fetch, a non-ok status, and an unreadable body all
produce a rejection that propagates to the aggregation. -/
def simplifyHandler (up : Upstream) : Except String Json :=
  match up with
  | Upstream.reject msg => Except.error msg
  | Upstream.resp ok jsonBody =>
    if !ok then Except.error "Failed to simplify job posting"
    else
      match jsonBody with
      | Except.error _ => Except.error "SyntaxError"
      | Except.ok v => Except.ok v

/-- The training promise of one listing: the `.then` turns a non-ok status into
`CLIENT_NOTOK_PLAN`, and the `.catch` turns any rejection (network failure or an
unreadable body) into `CLIENT_CATCH_PLAN`, so this promise never rejects. -/
def trainingHandler (up : Upstream) : Json :=
  match up with
  | Upstream.reject _ => CLIENT_CATCH_PLAN
  | Upstream.resp ok jsonBody =>
    if !ok then CLIENT_NOTOK_PLAN
    else
      match jsonBody with
      | Except.error _ => CLIENT_CATCH_PLAN
      | Except.ok v => v

/-- The page state after `fetchAll` has fully settled. -/
structure AggState where
  jobs : List SearchJobs.JobListing
  simplified : List (String × Json)
  training : List (String × Json)
  error : Option String
  isLoading : Bool

/-- The enrichment stage of `fetchAll` (`results/page.tsx` lines 184–296), observed
after every dispatched promise has settled.  `baseError` is whatever the preceding
job-search stage left in the error slot.  Each listing's `Promise.all` pair writes the
two keyed entries only when its simplify promise resolved; a simplify rejection
rejects the outer `Promise.all`, whose catch stores the rejection's message as the
page-level error (the jobs list itself is not cleared).  The listings settle in an
order the runtime does not fix; entries are recorded here in list order, which is
immaterial because updates are keyed by listing id, and the stored error is the
message of the first failing listing in list order, standing for the
first-in-time rejection `Promise.all` reports. -/
def enrichResult (foundJobs : List SearchJobs.JobListing)
    (sOut tOut : SearchJobs.JobListing → Upstream) (baseError : Option String) :
    AggState :=
  { jobs := foundJobs
    simplified := foundJobs.filterMap (fun j =>
      match simplifyHandler (sOut j) with
      | Except.ok v => some (j.id, v)
      | Except.error _ => none)
    training := foundJobs.filterMap (fun j =>
      match simplifyHandler (sOut j) with
      | Except.ok _ => some (j.id, trainingHandler (tOut j))
      | Except.error _ => none)
    error :=
      match foundJobs.filterMap (fun j =>
        match simplifyHandler (sOut j) with
        | Except.error m => some m
        | Except.ok _ => none) with
      | [] => baseError
      | m :: _ => some m
    isLoading := false }

/-- First entry under a key in a keyed record represented as an entry list. -/
def recordGet (l : List (String × Json)) (k : String) : Option Json :=
  match l.find? (fun p => p.1 = k) with
  | some p => some p.2
  | none => none

end Aggregator

/-- The last element of `d :: l`. -/
def lastD (l : List String) (d : String) : String :=
  match l with
  | [] => d
  | x :: t => lastD t x

/-- All the profile fields carry only code points below 256. -/
def profileLatin1 (P : Profile) : Prop :=
  (∀ c ∈ P.name.data, c.toNat ≤ 255) ∧ (∀ c ∈ P.gender.data, c.toNat ≤ 255) ∧
    (∀ c ∈ P.homeless.data, c.toNat ≤ 255) ∧
    (∀ r ∈ P.race, ∀ c ∈ r.data, c.toNat ≤ 255) ∧
    (∀ x ∈ P.interests, ∀ c ∈ x.data, c.toNat ≤ 255) ∧
    (∀ x ∈ P.disabilities, ∀ c ∈ x.data, c.toNat ≤ 255) ∧
    (∀ x ∈ P.medicalConditions, ∀ c ∈ x.data, c.toNat ≤ 255) ∧
    (∀ c ∈ P.location.data, c.toNat ≤ 255)

instance (P : Profile) : Decidable (profileLatin1 P) := by
  unfold profileLatin1
  infer_instance

/-! ## Round-trip lemmas for the JSON layer -/

@[simp] theorem skipWs_cons (c : Char) (t : List Char) :
    skipWs (c :: t) = if isJsonWs c then skipWs t else c :: t := rfl

theorem skipWs_not_ws {c : Char} (t : List Char) (h : isJsonWs c = false) :
    skipWs (c :: t) = c :: t := by
  rw [skipWs_cons, h]
  simp

theorem char_ofNat_toNat_eq {c : Char} {n : Nat} (h : c.toNat = n) (hn : n < 55296) :
    Char.ofNat n = c := by
  subst h
  exact Char.ofNat_toNat c

theorem hexVal_hexDigit {n : Nat} (h : n < 16) : hexVal (hexDigit n) = some n := by
  interval_cases n <;> decide

theorem psb_quote (rest : List Char) : parseStringBody ('"' :: rest) = some ([], rest) := by
  rw [parseStringBody.eq_def]
  simp

theorem psb_raw {c : Char} (rest : List Char) (h : ¬c = '"') (h2 : ¬c = '\\')
    (h3 : ¬c.toNat < 32) :
    parseStringBody (c :: rest) = (parseStringBody rest).map (fun r => (c :: r.1, r.2)) := by
  rw [parseStringBody.eq_def]
  simp [h, h2, h3]

theorem psb_esc_quote (t : List Char) :
    parseStringBody ('\\' :: '"' :: t) =
      (parseStringBody t).map (fun r => ('"' :: r.1, r.2)) := by
  rw [parseStringBody.eq_def]
  simp

theorem psb_esc_back (t : List Char) :
    parseStringBody ('\\' :: '\\' :: t) =
      (parseStringBody t).map (fun r => ('\\' :: r.1, r.2)) := by
  rw [parseStringBody.eq_def]
  simp

theorem psb_esc_b (t : List Char) :
    parseStringBody ('\\' :: 'b' :: t) =
      (parseStringBody t).map (fun r => (Char.ofNat 8 :: r.1, r.2)) := by
  rw [parseStringBody.eq_def]
  simp

theorem psb_esc_t (t : List Char) :
    parseStringBody ('\\' :: 't' :: t) =
      (parseStringBody t).map (fun r => (Char.ofNat 9 :: r.1, r.2)) := by
  rw [parseStringBody.eq_def]
  simp

theorem psb_esc_n (t : List Char) :
    parseStringBody ('\\' :: 'n' :: t) =
      (parseStringBody t).map (fun r => (Char.ofNat 10 :: r.1, r.2)) := by
  rw [parseStringBody.eq_def]
  simp

theorem psb_esc_f (t : List Char) :
    parseStringBody ('\\' :: 'f' :: t) =
      (parseStringBody t).map (fun r => (Char.ofNat 12 :: r.1, r.2)) := by
  rw [parseStringBody.eq_def]
  simp

theorem psb_esc_r (t : List Char) :
    parseStringBody ('\\' :: 'r' :: t) =
      (parseStringBody t).map (fun r => (Char.ofNat 13 :: r.1, r.2)) := by
  rw [parseStringBody.eq_def]
  simp

theorem psb_esc_u {h1 h2 h3 h4 : Char} {a b hc d : Nat} (t : List Char)
    (e1 : hexVal h1 = some a) (e2 : hexVal h2 = some b) (e3 : hexVal h3 = some hc)
    (e4 : hexVal h4 = some d) :
    parseStringBody ('\\' :: 'u' :: h1 :: h2 :: h3 :: h4 :: t) =
      (parseStringBody t).map
        (fun r => (Char.ofNat (a * 4096 + b * 256 + hc * 16 + d) :: r.1, r.2)) := by
  rw [parseStringBody.eq_def]
  simp [e1, e2, e3, e4]

/-- Parsing undoes escaping: the body of a stringified string literal parses back to
the original characters, leaving the input after the closing quote untouched. -/
theorem parseStringBody_escapeList (cs : List Char) (rest : List Char) :
    parseStringBody (escapeList cs ++ '"' :: rest) = some (cs, rest) := by
  induction cs with
  | nil => simpa [escapeList] using psb_quote rest
  | cons c t ih =>
    rw [escapeList]
    by_cases hq : c = '"'
    · subst hq
      simp [escapeChar, psb_esc_quote, ih]
    · by_cases hb : c = '\\'
      · subst hb
        simp [escapeChar, psb_esc_back, ih]
      · by_cases hctl : c.toNat < 32
        · rw [escapeChar, if_neg hq, if_neg hb, if_pos hctl]
          by_cases h8 : c.toNat = 8
          · rw [if_pos h8, ← char_ofNat_toNat_eq h8 (by omega)]
            simp only [List.cons_append, List.nil_append]
            rw [psb_esc_b, ih]
            rfl
          · by_cases h9 : c.toNat = 9
            · rw [if_neg h8, if_pos h9, ← char_ofNat_toNat_eq h9 (by omega)]
              simp only [List.cons_append, List.nil_append]
              rw [psb_esc_t, ih]
              rfl
            · by_cases h10 : c.toNat = 10
              · rw [if_neg h8, if_neg h9, if_pos h10, ← char_ofNat_toNat_eq h10 (by omega)]
                simp only [List.cons_append, List.nil_append]
                rw [psb_esc_n, ih]
                rfl
              · by_cases h12 : c.toNat = 12
                · rw [if_neg h8, if_neg h9, if_neg h10, if_pos h12,
                    ← char_ofNat_toNat_eq h12 (by omega)]
                  simp only [List.cons_append, List.nil_append]
                  rw [psb_esc_f, ih]
                  rfl
                · by_cases h13 : c.toNat = 13
                  · rw [if_neg h8, if_neg h9, if_neg h10, if_neg h12, if_pos h13,
                      ← char_ofNat_toNat_eq h13 (by omega)]
                    simp only [List.cons_append, List.nil_append]
                    rw [psb_esc_r, ih]
                    rfl
                  · rw [if_neg h8, if_neg h9, if_neg h10, if_neg h12, if_neg h13]
                    have hhi : c.toNat / 16 < 16 := by omega
                    have hlo : c.toNat % 16 < 16 := by omega
                    simp only [List.cons_append, List.nil_append]
                    have hz : hexVal '0' = some 0 := by decide
                    rw [psb_esc_u _ hz hz (hexVal_hexDigit hhi) (hexVal_hexDigit hlo), ih]
                    have harith : 0 * 4096 + 0 * 256 + c.toNat / 16 * 16 + c.toNat % 16 =
                        c.toNat := by omega
                    rw [harith, char_ofNat_toNat_eq rfl (by omega)]
                    rfl
        · rw [escapeChar, if_neg hq, if_neg hb, if_neg hctl]
          simp only [List.cons_append, List.nil_append]
          rw [psb_raw _ hq hb hctl, ih]
          rfl

theorem stringifyStr_append (s : String) (rest : List Char) :
    stringifyStr s ++ rest = '"' :: (escapeList s.data ++ '"' :: rest) := by
  simp [stringifyStr, List.append_assoc]

/-- A stringified string parses as a JSON value at any positive fuel. -/
theorem parseValue_stringifyStr (f : Nat) (s : String) (rest : List Char) :
    parseValue (f + 1) (stringifyStr s ++ rest) = some (Json.str s, rest) := by
  rw [stringifyStr_append, parseValue.eq_def]
  simp only [skipWs_not_ws _ (by decide : isJsonWs '"' = false)]
  simp [parseStringBody_escapeList]

theorem parseElems_strs (l : List String) (k : Nat) (rest : List Char) (hl : l ≠ []) :
    parseElems (l.length + k + 1) (stringifyStrArrBody l ++ ']' :: rest) =
      some (l.map Json.str, rest) := by
  induction l generalizing k with
  | nil => exact absurd rfl hl
  | cons s t ih =>
    match t with
    | [] =>
      rw [stringifyStrArrBody, parseElems.eq_def]
      simp only [List.length_cons, List.length_nil]
      rw [show 0 + 1 + k = k + 1 from by omega]
      rw [parseValue_stringifyStr k]
      simp [isJsonWs]
    | u :: t2 =>
      rw [stringifyStrArrBody, parseElems.eq_def]
      simp only [List.length_cons, List.append_assoc, List.cons_append]
      rw [show t2.length + 1 + 1 + k = (t2.length + 1 + k) + 1 from by omega]
      rw [parseValue_stringifyStr (t2.length + 1 + k)]
      have hih := ih (k := k) (by intro h; exact List.noConfusion h)
      simp only [List.length_cons, List.append_assoc, List.cons_append] at hih
      simp [isJsonWs, hih]
      intro h
      exact List.noConfusion h

theorem parseValue_stringifyStrArr (l : List String) (f : Nat) (rest : List Char) :
    parseValue (l.length + f + 2) ((stringifyStrArr l).data ++ rest) =
      some (Json.arr (l.map Json.str), rest) := by
  match l with
  | [] =>
    simp only [List.length_nil]
    rw [show 0 + f + 2 = (f + 1) + 1 from by omega]
    have h2 : (stringifyStrArr ([] : List String)).data ++ rest = '[' :: ']' :: rest := by
      simp [stringifyStrArr, stringifyStrArrBody]
    rw [parseValue.eq_def, h2]
    simp [isJsonWs]
  | s :: t =>
    have hs : (stringifyStrArr (s :: t)).data ++ rest =
        '[' :: (stringifyStrArrBody (s :: t) ++ ']' :: rest) := by
      simp [stringifyStrArr, List.append_assoc]
    obtain ⟨body, hbody⟩ : ∃ Y, stringifyStrArrBody (s :: t) ++ ']' :: rest = '"' :: Y := by
      match t with
      | [] =>
        exact ⟨escapeList s.data ++ '"' :: ']' :: rest,
          by simp [stringifyStrArrBody, stringifyStr, List.append_assoc]⟩
      | u :: t2 =>
        exact ⟨escapeList s.data ++ '"' :: ',' :: (stringifyStrArrBody (u :: t2) ++ ']' :: rest),
          by simp [stringifyStrArrBody, stringifyStr, List.append_assoc]⟩
    rw [show (s :: t).length + f + 2 = ((s :: t).length + f + 1) + 1 from by omega]
    rw [parseValue.eq_def, hs, hbody]
    have helems := parseElems_strs (s :: t) f rest (by intro h; exact List.noConfusion h)
    rw [hbody] at helems
    simp only [List.length_cons] at helems
    simp [isJsonWs, helems]

theorem stringifyStrArrBody_length (l : List String) :
    l.length ≤ (stringifyStrArrBody l).length + 1 := by
  induction l with
  | nil => simp [stringifyStrArrBody]
  | cons s t ih =>
    match t with
    | [] => simp [stringifyStrArrBody, stringifyStr]
    | u :: t2 =>
      have h := ih
      simp only [List.length_cons] at h
      simp only [List.length_cons]
      have hstep : (stringifyStrArrBody (u :: t2)).length + 1 ≤
          (stringifyStrArrBody (s :: u :: t2)).length := by
        simp [stringifyStrArrBody]
      omega

/-- `JSON.parse` undoes `JSON.stringify` on an array of strings. -/
theorem parseJsonStr_stringifyStrArr (l : List String) :
    parseJsonStr (stringifyStrArr l) = some (Json.arr (l.map Json.str)) := by
  have hblen : (stringifyStrArr l).length = (stringifyStrArrBody l).length + 2 := by
    simp [stringifyStrArr, String.length]
  obtain ⟨f, hf⟩ : ∃ f, (stringifyStrArr l).length = l.length + f + 1 :=
    ⟨(stringifyStrArrBody l).length + 1 - l.length,
      by have := stringifyStrArrBody_length l; omega⟩
  unfold parseJsonStr
  rw [hf, show l.length + f + 1 + 1 = l.length + f + 2 from by omega]
  have hp := parseValue_stringifyStrArr l f []
  rw [List.append_nil] at hp
  rw [hp]
  simp [skipWs]

theorem parseMembers_flat (l : List (String × String)) (k : Nat) (rest : List Char)
    (hl : l ≠ []) :
    parseMembers (l.length + k + 1) (stringifyFlatObjBody l ++ rbrace :: rest) =
      some (l.map (fun p => (p.1, Json.str p.2)), rest) := by
  induction l generalizing k with
  | nil => exact absurd rfl hl
  | cons p t ih =>
    match t with
    | [] =>
      have hshape : stringifyFlatObjBody [p] ++ rbrace :: rest =
          '"' :: (escapeList p.1.data ++
            '"' :: (':' :: (stringifyStr p.2 ++ rbrace :: rest))) := by
        simp [stringifyFlatObjBody, stringifyStr, List.append_assoc]
      rw [parseMembers.eq_def, hshape]
      simp only [List.length_cons, List.length_nil]
      rw [show 0 + 1 + k = k + 1 from by omega]
      simp [isJsonWs, parseStringBody_escapeList, parseValue_stringifyStr k, rbrace]
    | q :: t2 =>
      have hshape : stringifyFlatObjBody (p :: q :: t2) ++ rbrace :: rest =
          '"' :: (escapeList p.1.data ++
            '"' :: (':' :: (stringifyStr p.2 ++
              ',' :: (stringifyFlatObjBody (q :: t2) ++ rbrace :: rest)))) := by
        simp [stringifyFlatObjBody, stringifyStr, List.append_assoc]
      rw [parseMembers.eq_def, hshape]
      simp only [List.length_cons]
      rw [show t2.length + 1 + 1 + k = (t2.length + 1 + k) + 1 from by omega]
      have hih := ih (k := k) (by intro h; exact List.noConfusion h)
      simp only [List.length_cons, List.append_assoc, List.cons_append] at hih
      simp only [rbrace] at hih
      simp [isJsonWs, parseStringBody_escapeList,
        parseValue_stringifyStr (t2.length + 1 + k), hih, rbrace]

theorem parseValue_stringifyFlatObj (l : List (String × String)) (f : Nat)
    (rest : List Char) :
    parseValue (l.length + f + 2) ((stringifyFlatObj l).data ++ rest) =
      some (Json.obj (l.map (fun p => (p.1, Json.str p.2))), rest) := by
  match l with
  | [] =>
    simp only [List.length_nil]
    rw [show 0 + f + 2 = (f + 1) + 1 from by omega]
    have h2 : (stringifyFlatObj ([] : List (String × String))).data ++ rest =
        lbrace :: rbrace :: rest := by
      simp [stringifyFlatObj, stringifyFlatObjBody]
    rw [parseValue.eq_def, h2]
    simp [isJsonWs, lbrace, rbrace]
  | p :: t =>
    have hs : (stringifyFlatObj (p :: t)).data ++ rest =
        lbrace :: (stringifyFlatObjBody (p :: t) ++ rbrace :: rest) := by
      simp [stringifyFlatObj, List.append_assoc]
    obtain ⟨body, hbody⟩ :
        ∃ Y, stringifyFlatObjBody (p :: t) ++ rbrace :: rest = '"' :: Y := by
      match t with
      | [] =>
        exact ⟨escapeList p.1.data ++ '"' :: (':' :: (stringifyStr p.2 ++ rbrace :: rest)),
          by simp [stringifyFlatObjBody, stringifyStr, List.append_assoc]⟩
      | q :: t2 =>
        exact ⟨escapeList p.1.data ++ '"' :: (':' :: (stringifyStr p.2 ++
            ',' :: (stringifyFlatObjBody (q :: t2) ++ rbrace :: rest))),
          by simp [stringifyFlatObjBody, stringifyStr, List.append_assoc]⟩
    rw [show (p :: t).length + f + 2 = ((p :: t).length + f + 1) + 1 from by omega]
    rw [parseValue.eq_def, hs, hbody]
    have hmem := parseMembers_flat (p :: t) f rest (by intro h; exact List.noConfusion h)
    rw [hbody] at hmem
    simp only [List.length_cons] at hmem
    simp [isJsonWs, lbrace, rbrace, hmem]

theorem stringifyFlatObjBody_length (l : List (String × String)) :
    l.length ≤ (stringifyFlatObjBody l).length + 1 := by
  induction l with
  | nil => simp [stringifyFlatObjBody]
  | cons p t ih =>
    match t with
    | [] => simp [stringifyFlatObjBody, stringifyStr]
    | q :: t2 =>
      have h := ih
      simp only [List.length_cons] at h
      simp only [List.length_cons]
      have hstep : (stringifyFlatObjBody (q :: t2)).length + 1 ≤
          (stringifyFlatObjBody (p :: q :: t2)).length := by
        simp [stringifyFlatObjBody]
        omega
      omega

/-- `JSON.parse` undoes `JSON.stringify` on a flat object of strings. -/
theorem parseJsonStr_stringifyFlatObj (l : List (String × String)) :
    parseJsonStr (stringifyFlatObj l) = some (Json.obj (l.map (fun p => (p.1, Json.str p.2)))) := by
  have hblen : (stringifyFlatObj l).length = (stringifyFlatObjBody l).length + 2 := by
    simp [stringifyFlatObj, String.length]
  obtain ⟨f, hf⟩ : ∃ f, (stringifyFlatObj l).length = l.length + f + 1 :=
    ⟨(stringifyFlatObjBody l).length + 1 - l.length,
      by have := stringifyFlatObjBody_length l; omega⟩
  unfold parseJsonStr
  rw [hf, show l.length + f + 1 + 1 = l.length + f + 2 from by omega]
  have hp := parseValue_stringifyFlatObj l f []
  rw [List.append_nil] at hp
  rw [hp]
  simp [skipWs]

/-! ## Base64 and percent-encoding inverses -/

theorem b64Val_b64Char : ∀ n < 64, b64Val (b64Char n) = some n := by decide

theorem b64Char_ne_pad : ∀ n < 64, ¬b64Char n = '=' := by decide

theorem b64Char_not_ws : ∀ n < 64, isAsciiWs (b64Char n) = false := by decide

theorem b64Char_lt128 : ∀ n < 64, (b64Char n).toNat < 128 := by decide

/-- Every character of a base64 encoding of bytes is padding or an alphabet
character. -/
theorem mem_btoaBytes (bs : List Nat) (hbs : ∀ b ∈ bs, b < 256) :
    ∀ c ∈ btoaBytes bs, c = '=' ∨ ∃ n, n < 64 ∧ c = b64Char n := by
  induction bs using btoaBytes.induct with
  | case1 => intro c hc; exact absurd hc (List.not_mem_nil c)
  | case2 b1 =>
    have h1 : b1 < 256 := hbs b1 (by simp)
    intro c hc
    simp only [btoaBytes, List.mem_cons] at hc
    rcases hc with h | h | h | h | h
    · exact Or.inr ⟨b1 / 4, by omega, h⟩
    · exact Or.inr ⟨b1 % 4 * 16, by omega, h⟩
    · exact Or.inl h
    · exact Or.inl h
    · exact absurd h (List.not_mem_nil c)
  | case3 b1 b2 =>
    have h1 : b1 < 256 := hbs b1 (by simp)
    have h2 : b2 < 256 := hbs b2 (by simp)
    intro c hc
    simp only [btoaBytes, List.mem_cons] at hc
    rcases hc with h | h | h | h | h
    · exact Or.inr ⟨b1 / 4, by omega, h⟩
    · exact Or.inr ⟨b1 % 4 * 16 + b2 / 16, by omega, h⟩
    · exact Or.inr ⟨b2 % 16 * 4, by omega, h⟩
    · exact Or.inl h
    · exact absurd h (List.not_mem_nil c)
  | case4 b1 b2 b3 rest ih =>
    have h1 : b1 < 256 := hbs b1 (by simp)
    have h2 : b2 < 256 := hbs b2 (by simp)
    have h3 : b3 < 256 := hbs b3 (by simp)
    have hrest : ∀ b ∈ rest, b < 256 := fun b hb => hbs b (by simp [hb])
    intro c hc
    simp only [btoaBytes, List.mem_cons] at hc
    rcases hc with h | h | h | h | h
    · exact Or.inr ⟨b1 / 4, by omega, h⟩
    · exact Or.inr ⟨b1 % 4 * 16 + b2 / 16, by omega, h⟩
    · exact Or.inr ⟨b2 % 16 * 4 + b3 / 64, by omega, h⟩
    · exact Or.inr ⟨b3 % 64, by omega, h⟩
    · exact ih hrest c h

theorem btoaBytes_no_ws (bs : List Nat) (hbs : ∀ b ∈ bs, b < 256) :
    (btoaBytes bs).filter (fun c => !isAsciiWs c) = btoaBytes bs := by
  rw [List.filter_eq_self]
  intro c hc
  rcases mem_btoaBytes bs hbs c hc with h | ⟨n, hn, h⟩
  · subst h; decide
  · subst h
    simp [b64Char_not_ws n hn]

theorem btoaBytes_lt128 (bs : List Nat) (hbs : ∀ b ∈ bs, b < 256) :
    ∀ c ∈ btoaBytes bs, c.toNat < 128 := by
  intro c hc
  rcases mem_btoaBytes bs hbs c hc with h | ⟨n, hn, h⟩
  · subst h; decide
  · subst h; exact b64Char_lt128 n hn

/-- Base64 decoding undoes base64 encoding on byte lists. -/
theorem atobCore_btoaBytes (bs : List Nat) (hbs : ∀ b ∈ bs, b < 256) :
    atobCore (btoaBytes bs) = Except.ok bs := by
  induction bs using btoaBytes.induct with
  | case1 => rfl
  | case2 b1 =>
    have h1 : b1 < 256 := hbs b1 (by simp)
    have e1 := b64Val_b64Char (b1 / 4) (by omega)
    have e2 := b64Val_b64Char (b1 % 4 * 16) (by omega)
    rw [btoaBytes]
    simp [atobCore, e1, e2, Except.map]
    omega
  | case3 b1 b2 =>
    have h1 : b1 < 256 := hbs b1 (by simp)
    have h2 : b2 < 256 := hbs b2 (by simp)
    have e1 := b64Val_b64Char (b1 / 4) (by omega)
    have e2 := b64Val_b64Char (b1 % 4 * 16 + b2 / 16) (by omega)
    have e3 := b64Val_b64Char (b2 % 16 * 4) (by omega)
    have hne := b64Char_ne_pad (b2 % 16 * 4) (by omega)
    rw [btoaBytes]
    simp [atobCore, e1, e2, e3, hne, Except.map]
    omega
  | case4 b1 b2 b3 rest ih =>
    have h1 : b1 < 256 := hbs b1 (by simp)
    have h2 : b2 < 256 := hbs b2 (by simp)
    have h3 : b3 < 256 := hbs b3 (by simp)
    have hrest : ∀ b ∈ rest, b < 256 := fun b hb => hbs b (by simp [hb])
    have e1 := b64Val_b64Char (b1 / 4) (by omega)
    have e2 := b64Val_b64Char (b1 % 4 * 16 + b2 / 16) (by omega)
    have e3 := b64Val_b64Char (b2 % 16 * 4 + b3 / 64) (by omega)
    have e4 := b64Val_b64Char (b3 % 64) (by omega)
    have hne := b64Char_ne_pad (b3 % 64) (by omega)
    rw [btoaBytes]
    simp [atobCore, e1, e2, e3, e4, hne, ih hrest, Except.map]
    omega

/-- `atob` undoes `btoa`. -/
theorem atobS_btoaS (s : String) (h : ∀ c ∈ s.data, c.toNat ≤ 255) :
    btoaS s = Except.ok ⟨btoaBytes (s.data.map Char.toNat)⟩ ∧
      atobS ⟨btoaBytes (s.data.map Char.toNat)⟩ = Except.ok s := by
  constructor
  · rw [btoaS, if_pos]
    exact List.all_eq_true.mpr (fun c hc => decide_eq_true (h c hc))
  · have hb256 : ∀ b ∈ s.data.map Char.toNat, b < 256 := by
      intro b hb
      obtain ⟨c, hc, rfl⟩ := List.mem_map.mp hb
      have := h c hc
      omega
    rw [atobS]
    show (atobCore ((btoaBytes (s.data.map Char.toNat)).filter _)).map _ = _
    rw [btoaBytes_no_ws _ hb256, atobCore_btoaBytes _ hb256]
    simp only [Except.map]
    rw [List.map_map]
    have h1 : (Char.ofNat ∘ Char.toNat) = fun c : Char => Char.ofNat c.toNat := rfl
    rw [h1]
    have h2 : s.data.map (fun c : Char => Char.ofNat c.toNat) = s.data.map id := by
      apply List.map_congr_left
      intro c _
      exact Char.ofNat_toNat c
    rw [h2, List.map_id]

theorem hexVal_hexDigitU : ∀ n < 16, hexVal (hexDigitU n) = some n := by decide

theorem isUriUnreserved_ne_percent {c : Char} (h : isUriUnreserved c = true) : ¬c = '%' := by
  intro hc
  subst hc
  exact absurd h (by decide)

/-- Percent-decoding undoes percent-encoding on ASCII strings. -/
theorem percentDecodeBytes_encode (cs : List Char) (h : ∀ c ∈ cs, c.toNat < 128) :
    percentDecodeBytes (cs.flatMap (fun c =>
      if isUriUnreserved c then [c]
      else (utf8EncodeChar c).flatMap
        (fun b => ['%', hexDigitU (b / 16), hexDigitU (b % 16)]))) =
      Except.ok (cs.map Char.toNat) := by
  induction cs with
  | nil => rfl
  | cons c t ih =>
    have hc : c.toNat < 128 := h c (by simp)
    have ht : ∀ d ∈ t, d.toNat < 128 := fun d hd => h d (by simp [hd])
    have hibyte : utf8EncodeChar c = [c.toNat] := by
      rw [utf8EncodeChar]
      simp [hc]
    rw [List.flatMap_cons]
    by_cases hu : isUriUnreserved c
    · rw [if_pos hu]
      have hne : ¬c = '%' := isUriUnreserved_ne_percent hu
      rw [List.cons_append, List.nil_append, percentDecodeBytes.eq_def]
      simp only [hne, ite_false]
      rw [ih ht, hibyte]
      rfl
    · rw [if_neg hu, hibyte]
      simp only [List.flatMap_cons, List.flatMap_nil, List.append_nil, List.cons_append,
        List.nil_append]
      rw [percentDecodeBytes.eq_def]
      simp [hexVal_hexDigitU (c.toNat / 16) (by omega),
        hexVal_hexDigitU (c.toNat % 16) (by omega), ih ht, Except.map]
      omega

theorem utf8DecodeFuel_ascii (cs : List Char) (fuel : Nat) (hf : cs.length ≤ fuel)
    (h : ∀ c ∈ cs, c.toNat < 128) :
    utf8DecodeFuel fuel (cs.map Char.toNat) = some cs := by
  induction cs generalizing fuel with
  | nil => rw [List.map_nil, utf8DecodeFuel]
  | cons c t ih =>
    have hc : c.toNat < 128 := h c (by simp)
    have ht : ∀ d ∈ t, d.toNat < 128 := fun d hd => h d (by simp [hd])
    cases fuel with
    | zero => simp at hf
    | succ fuel =>
      rw [List.map_cons, utf8DecodeFuel.eq_def]
      simp only [hc, ite_true]
      rw [ih fuel (by simp at hf; omega) ht]
      simp [Char.ofNat_toNat]

theorem utf8Decode_ascii (cs : List Char) (h : ∀ c ∈ cs, c.toNat < 128) :
    utf8Decode (cs.map Char.toNat) = some cs := by
  rw [utf8Decode]
  exact utf8DecodeFuel_ascii cs _ (by simp) h

/-- `decodeURIComponent` undoes `encodeURIComponent` on ASCII strings. -/
theorem decodeURIComponentS_encodeURIComponentS (s : String)
    (h : ∀ c ∈ s.data, c.toNat < 128) :
    decodeURIComponentS (encodeURIComponentS s) = Except.ok s := by
  rw [decodeURIComponentS]
  have hd : (encodeURIComponentS s).data = s.data.flatMap (fun c =>
      if isUriUnreserved c then [c]
      else (utf8EncodeChar c).flatMap
        (fun b => ['%', hexDigitU (b / 16), hexDigitU (b % 16)])) := rfl
  rw [hd, percentDecodeBytes_encode s.data h]
  simp [utf8Decode_ascii s.data h]

/-! ## Character-set lemmas for the encoder -/

theorem hexDigit_le255 : ∀ n < 16, (hexDigit n).toNat ≤ 255 := by decide

theorem escapeChar_latin1 {c : Char} (h : c.toNat ≤ 255) :
    ∀ d ∈ escapeChar c, d.toNat ≤ 255 := by
  intro d hd
  rw [escapeChar] at hd
  split_ifs at hd with h1 h2 h3 h4 h5 h6 h7 h8
  · simp only [List.mem_cons, List.not_mem_nil, or_false] at hd
    rcases hd with rfl | rfl <;> decide
  · simp only [List.mem_cons, List.not_mem_nil, or_false] at hd
    rcases hd with rfl | rfl <;> decide
  · simp only [List.mem_cons, List.not_mem_nil, or_false] at hd
    rcases hd with rfl | rfl <;> decide
  · simp only [List.mem_cons, List.not_mem_nil, or_false] at hd
    rcases hd with rfl | rfl <;> decide
  · simp only [List.mem_cons, List.not_mem_nil, or_false] at hd
    rcases hd with rfl | rfl <;> decide
  · simp only [List.mem_cons, List.not_mem_nil, or_false] at hd
    rcases hd with rfl | rfl <;> decide
  · simp only [List.mem_cons, List.not_mem_nil, or_false] at hd
    rcases hd with rfl | rfl <;> decide
  · simp only [List.mem_cons, List.not_mem_nil, or_false] at hd
    rcases hd with rfl | rfl | rfl | rfl | rfl | rfl
    · decide
    · decide
    · decide
    · decide
    · exact hexDigit_le255 (c.toNat / 16) (by omega)
    · exact hexDigit_le255 (c.toNat % 16) (by omega)
  · simp only [List.mem_singleton] at hd
    subst hd
    exact h

theorem escapeList_latin1 (cs : List Char) (h : ∀ c ∈ cs, c.toNat ≤ 255) :
    ∀ d ∈ escapeList cs, d.toNat ≤ 255 := by
  induction cs with
  | nil => intro d hd; exact absurd hd (List.not_mem_nil d)
  | cons c t ih =>
    intro d hd
    rw [escapeList] at hd
    rcases List.mem_append.mp hd with h1 | h1
    · exact escapeChar_latin1 (h c (by simp)) d h1
    · exact ih (fun x hx => h x (by simp [hx])) d h1

theorem stringifyStr_latin1 (s : String) (h : ∀ c ∈ s.data, c.toNat ≤ 255) :
    ∀ d ∈ stringifyStr s, d.toNat ≤ 255 := by
  intro d hd
  rw [stringifyStr] at hd
  rcases List.mem_cons.mp hd with rfl | hd
  · decide
  · rcases List.mem_append.mp hd with h1 | h1
    · exact escapeList_latin1 s.data h d h1
    · simp only [List.mem_singleton] at h1
      subst h1
      decide

theorem stringifyStrArr_latin1 (l : List String)
    (h : ∀ x ∈ l, ∀ c ∈ x.data, c.toNat ≤ 255) :
    ∀ d ∈ (stringifyStrArr l).data, d.toNat ≤ 255 := by
  have hbody : ∀ (l : List String), (∀ x ∈ l, ∀ c ∈ x.data, c.toNat ≤ 255) →
      ∀ d ∈ stringifyStrArrBody l, d.toNat ≤ 255 := by
    intro l
    induction l with
    | nil => intro _ d hd; exact absurd hd (List.not_mem_nil d)
    | cons s t ih =>
      intro hl d hd
      match t with
      | [] =>
        have hsh : stringifyStrArrBody [s] = stringifyStr s := by
          simp [stringifyStrArrBody]
        rw [hsh] at hd
        exact stringifyStr_latin1 s (hl s (by simp)) d hd
      | u :: t2 =>
        have hsh : stringifyStrArrBody (s :: u :: t2) =
            stringifyStr s ++ ',' :: stringifyStrArrBody (u :: t2) := by
          simp [stringifyStrArrBody]
        rw [hsh] at hd
        simp only [List.mem_append, List.mem_cons] at hd
        rcases hd with h1 | rfl | h1
        · exact stringifyStr_latin1 s (hl s (by simp)) d h1
        · decide
        · exact ih (fun x hx => hl x (by simp [hx])) d h1
  intro d hd
  rw [stringifyStrArr] at hd
  simp only [String.data] at hd
  rcases List.mem_cons.mp hd with rfl | hd
  · decide
  · rcases List.mem_append.mp hd with h1 | h1
    · exact hbody l h d h1
    · simp only [List.mem_singleton] at h1
      subst h1
      decide

theorem stringifyFlatObj_latin1 (l : List (String × String))
    (hk : ∀ p ∈ l, ∀ c ∈ p.1.data, c.toNat ≤ 255)
    (hv : ∀ p ∈ l, ∀ c ∈ p.2.data, c.toNat ≤ 255) :
    ∀ d ∈ (stringifyFlatObj l).data, d.toNat ≤ 255 := by
  have hbody : ∀ (l : List (String × String)),
      (∀ p ∈ l, ∀ c ∈ p.1.data, c.toNat ≤ 255) →
      (∀ p ∈ l, ∀ c ∈ p.2.data, c.toNat ≤ 255) →
      ∀ d ∈ stringifyFlatObjBody l, d.toNat ≤ 255 := by
    intro l
    induction l with
    | nil => intro _ _ d hd; exact absurd hd (List.not_mem_nil d)
    | cons p t ih =>
      intro hk hv d hd
      match t with
      | [] =>
        have hsh : stringifyFlatObjBody [p] =
            stringifyStr p.1 ++ ':' :: stringifyStr p.2 := by
          simp [stringifyFlatObjBody]
        rw [hsh] at hd
        simp only [List.mem_append, List.mem_cons] at hd
        rcases hd with h1 | rfl | h1
        · exact stringifyStr_latin1 p.1 (hk p (by simp)) d h1
        · decide
        · exact stringifyStr_latin1 p.2 (hv p (by simp)) d h1
      | q :: t2 =>
        have hsh : stringifyFlatObjBody (p :: q :: t2) =
            stringifyStr p.1 ++ ':' :: (stringifyStr p.2 ++
              ',' :: stringifyFlatObjBody (q :: t2)) := by
          simp [stringifyFlatObjBody]
        rw [hsh] at hd
        simp only [List.mem_append, List.mem_cons] at hd
        rcases hd with h1 | rfl | h1 | rfl | h1
        · exact stringifyStr_latin1 p.1 (hk p (by simp)) d h1
        · decide
        · exact stringifyStr_latin1 p.2 (hv p (by simp)) d h1
        · decide
        · exact ih (fun x hx => hk x (by simp [hx]))
            (fun x hx => hv x (by simp [hx])) d h1
  intro d hd
  rw [stringifyFlatObj] at hd
  simp only [String.data] at hd
  rcases List.mem_cons.mp hd with rfl | hd
  · decide
  · rcases List.mem_append.mp hd with h1 | h1
    · exact hbody l hk hv d h1
    · simp only [List.mem_singleton] at h1
      subst h1
      decide

/-! ## Survival of non-Latin-1 characters through the encoder (for C10) -/

theorem escapeChar_big {c : Char} (h : 255 < c.toNat) : escapeChar c = [c] := by
  rw [escapeChar]
  rw [if_neg (fun hc => by subst hc; exact absurd h (by decide)),
    if_neg (fun hc => by subst hc; exact absurd h (by decide)),
    if_neg (by omega)]

theorem mem_escapeList_big {c : Char} {cs : List Char} (hm : c ∈ cs) (h : 255 < c.toNat) :
    c ∈ escapeList cs := by
  induction cs with
  | nil => exact absurd hm (List.not_mem_nil c)
  | cons d t ih =>
    rw [escapeList]
    rcases List.mem_cons.mp hm with rfl | hm
    · rw [escapeChar_big h]
      simp
    · exact List.mem_append.mpr (Or.inr (ih hm))

theorem mem_stringifyStr_big {c : Char} {s : String} (hm : c ∈ s.data)
    (h : 255 < c.toNat) : c ∈ stringifyStr s := by
  rw [stringifyStr]
  exact List.mem_cons.mpr (Or.inr (List.mem_append.mpr (Or.inl (mem_escapeList_big hm h))))

theorem mem_stringifyFlatObjBody_big {c : Char} {l : List (String × String)}
    {p : String × String} (hp : p ∈ l) (hm : c ∈ p.2.data) (h : 255 < c.toNat) :
    c ∈ stringifyFlatObjBody l := by
  induction l with
  | nil => exact absurd hp (List.not_mem_nil p)
  | cons q t ih =>
    match t with
    | [] =>
      have hsh : stringifyFlatObjBody [q] = stringifyStr q.1 ++ ':' :: stringifyStr q.2 := by
        simp [stringifyFlatObjBody]
      rw [hsh]
      rcases List.mem_cons.mp hp with rfl | hp
      · exact List.mem_append.mpr
          (Or.inr (List.mem_cons.mpr (Or.inr (mem_stringifyStr_big hm h))))
      · exact absurd hp (List.not_mem_nil p)
    | r :: t2 =>
      have hsh : stringifyFlatObjBody (q :: r :: t2) =
          stringifyStr q.1 ++ ':' :: (stringifyStr q.2 ++
            ',' :: stringifyFlatObjBody (r :: t2)) := by
        simp [stringifyFlatObjBody]
      rw [hsh]
      rcases List.mem_cons.mp hp with rfl | hp
      · exact List.mem_append.mpr (Or.inr (List.mem_cons.mpr (Or.inr
          (List.mem_append.mpr (Or.inl (mem_stringifyStr_big hm h))))))
      · exact List.mem_append.mpr (Or.inr (List.mem_cons.mpr (Or.inr
          (List.mem_append.mpr (Or.inr (List.mem_cons.mpr (Or.inr (ih hp))))))))

theorem mem_stringifyFlatObj_big {c : Char} {l : List (String × String)}
    {p : String × String} (hp : p ∈ l) (hm : c ∈ p.2.data) (h : 255 < c.toNat) :
    c ∈ (stringifyFlatObj l).data := by
  rw [stringifyFlatObj]
  simp only [String.data]
  exact List.mem_cons.mpr (Or.inr (List.mem_append.mpr
    (Or.inl (mem_stringifyFlatObjBody_big hp hm h))))

/-! ## Computing the encoded data object -/

theorem lastD_mem (l : List String) (d : String) : lastD l d ∈ d :: l := by
  induction l generalizing d with
  | nil => simp [lastD]
  | cons x t ih =>
    rw [lastD]
    rcases List.mem_cons.mp (ih x) with h | h
    · simp [h]
    · simp [List.mem_cons.mpr (Or.inr h)]

theorem map_update_id (l : List (String × String)) (k v : String)
    (h : ∀ p ∈ l, ¬p.1 = k) :
    l.map (fun p => if p.1 = k then (k, v) else p) = l := by
  induction l with
  | nil => rfl
  | cons p t ih =>
    rw [List.map_cons, if_neg (h p (by simp)), ih (fun q hq => h q (by simp [hq]))]

/-- Folding the remaining `race` entries over an object that ends with a `race` entry
keeps everything in place and leaves the last race value. -/
theorem foldl_ins_races (races : List String) (acc : List (String × String)) (r : String)
    (h : ∀ p ∈ acc, ¬p.1 = "race") :
    List.foldl (fun a p => insertEntry a p.1 p.2) (acc ++ [("race", r)])
      (races.map (fun x => ("race", x))) = acc ++ [("race", lastD races r)] := by
  induction races generalizing r with
  | nil => simp [lastD]
  | cons r2 rest ih =>
    simp only [List.map_cons, List.foldl_cons]
    have hins : insertEntry (acc ++ [("race", r)]) "race" r2 = acc ++ [("race", r2)] := by
      rw [insertEntry, if_pos (by simp), List.map_append, map_update_id acc _ _ h]
      simp
    rw [hins, ih]
    rfl

/-- The `data` object the submit handler builds, computed explicitly: the duplicate
`race` entries collapse to the last checked value, and of the four reassignments only
`data.interests` introduces a new key. -/
theorem encodeData_eq (P : Profile) (r0 : String) (rs : List String)
    (hr : P.race = r0 :: rs) :
    encodeData P =
      [("name", P.name), ("gender", P.gender), ("homeless", P.homeless),
       ("race", lastD rs r0),
       ("interest", stringifyStrArr P.interests),
       ("disabilities", stringifyStrArr P.disabilities),
       ("medical-conditions", stringifyStrArr P.medicalConditions),
       ("location", P.location),
       ("interests", stringifyStrArr P.interests)] := by
  have h1 : fromEntries (formEntries P) =
      [("name", P.name), ("gender", P.gender), ("homeless", P.homeless),
       ("race", lastD rs r0),
       ("interest", stringifyStrArr P.interests),
       ("disabilities", stringifyStrArr P.disabilities),
       ("medical-conditions", stringifyStrArr P.medicalConditions),
       ("location", P.location)] := by
    rw [fromEntries, formEntries, hr]
    simp only [List.map_cons, List.cons_append, List.nil_append, List.foldl_cons,
      List.foldl_append]
    have e1 : insertEntry [] "name" P.name = [("name", P.name)] := rfl
    have e2 : insertEntry [("name", P.name)] "gender" P.gender =
        [("name", P.name), ("gender", P.gender)] := by
      rw [insertEntry, if_neg (by simp)]
      simp
    have e3 : insertEntry [("name", P.name), ("gender", P.gender)] "homeless" P.homeless =
        [("name", P.name), ("gender", P.gender), ("homeless", P.homeless)] := by
      rw [insertEntry, if_neg (by simp)]
      simp
    have e4 : insertEntry [("name", P.name), ("gender", P.gender),
        ("homeless", P.homeless)] "race" r0 =
        [("name", P.name), ("gender", P.gender), ("homeless", P.homeless)] ++
          [("race", r0)] := by
      rw [insertEntry, if_neg (by simp)]
    rw [e1, e2, e3, e4, foldl_ins_races rs _ r0 (by
      intro p hp
      simp only [List.mem_cons, List.not_mem_nil, or_false] at hp
      rcases hp with rfl | rfl | rfl <;> simp)]
    simp only [List.cons_append, List.nil_append, List.foldl_cons, List.foldl_nil]
    have e5 : insertEntry [("name", P.name), ("gender", P.gender),
        ("homeless", P.homeless), ("race", lastD rs r0)] "interest"
          (stringifyStrArr P.interests) =
        [("name", P.name), ("gender", P.gender), ("homeless", P.homeless),
         ("race", lastD rs r0), ("interest", stringifyStrArr P.interests)] := by
      rw [insertEntry, if_neg (by simp)]
      simp
    have e6 : insertEntry [("name", P.name), ("gender", P.gender),
        ("homeless", P.homeless), ("race", lastD rs r0),
        ("interest", stringifyStrArr P.interests)] "disabilities"
          (stringifyStrArr P.disabilities) =
        [("name", P.name), ("gender", P.gender), ("homeless", P.homeless),
         ("race", lastD rs r0), ("interest", stringifyStrArr P.interests),
         ("disabilities", stringifyStrArr P.disabilities)] := by
      rw [insertEntry, if_neg (by simp)]
      simp
    have e7 : insertEntry [("name", P.name), ("gender", P.gender),
        ("homeless", P.homeless), ("race", lastD rs r0),
        ("interest", stringifyStrArr P.interests),
        ("disabilities", stringifyStrArr P.disabilities)] "medical-conditions"
          (stringifyStrArr P.medicalConditions) =
        [("name", P.name), ("gender", P.gender), ("homeless", P.homeless),
         ("race", lastD rs r0), ("interest", stringifyStrArr P.interests),
         ("disabilities", stringifyStrArr P.disabilities),
         ("medical-conditions", stringifyStrArr P.medicalConditions)] := by
      rw [insertEntry, if_neg (by simp)]
      simp
    have e8 : insertEntry [("name", P.name), ("gender", P.gender),
        ("homeless", P.homeless), ("race", lastD rs r0),
        ("interest", stringifyStrArr P.interests),
        ("disabilities", stringifyStrArr P.disabilities),
        ("medical-conditions", stringifyStrArr P.medicalConditions)] "location"
          P.location =
        [("name", P.name), ("gender", P.gender), ("homeless", P.homeless),
         ("race", lastD rs r0), ("interest", stringifyStrArr P.interests),
         ("disabilities", stringifyStrArr P.disabilities),
         ("medical-conditions", stringifyStrArr P.medicalConditions),
         ("location", P.location)] := by
      rw [insertEntry, if_neg (by simp)]
      simp
    rw [e5, e6, e7, e8]
  rw [encodeData, h1]
  have m1 : insertEntry [("name", P.name), ("gender", P.gender),
      ("homeless", P.homeless), ("race", lastD rs r0),
      ("interest", stringifyStrArr P.interests),
      ("disabilities", stringifyStrArr P.disabilities),
      ("medical-conditions", stringifyStrArr P.medicalConditions),
      ("location", P.location)] "interests" (stringifyStrArr P.interests) =
      [("name", P.name), ("gender", P.gender), ("homeless", P.homeless),
       ("race", lastD rs r0), ("interest", stringifyStrArr P.interests),
       ("disabilities", stringifyStrArr P.disabilities),
       ("medical-conditions", stringifyStrArr P.medicalConditions),
       ("location", P.location), ("interests", stringifyStrArr P.interests)] := by
    rw [insertEntry, if_neg (by simp)]
    simp
  rw [m1]
  have m2 : ∀ (l : List (String × String)) (k v : String),
      l.any (fun p => p.1 = k) = true →
      (∀ p ∈ l, p.1 = k → p.2 = v) →
      insertEntry l k v = l := by
    intro l k v hany heq
    rw [insertEntry, if_pos hany]
    induction l with
    | nil => rfl
    | cons p t ih =>
      rw [List.map_cons]
      by_cases hp : p.1 = k
      · have hpv : (k, v) = p := by
          have h2 := heq p (by simp) hp
          obtain ⟨pa, pb⟩ := p
          simp only at hp h2
          rw [hp, h2]
        rw [if_pos hp]
        by_cases ht : t.any (fun p => p.1 = k) = true
        · rw [ih ht (fun q hq => heq q (by simp [hq])), hpv]
        · rw [map_update_id _ _ _ (fun q hq hqk =>
            absurd (List.any_eq_true.mpr ⟨q, hq, decide_eq_true hqk⟩) ht), hpv]
      · rw [if_neg hp]
        congr 1
        apply ih
        · rcases List.any_eq_true.mp hany with ⟨q, hq, hqk⟩
          rcases List.mem_cons.mp hq with rfl | hq
          · exact absurd (of_decide_eq_true hqk) hp
          · exact List.any_eq_true.mpr ⟨q, hq, hqk⟩
        · intro q hq
          exact heq q (by simp [hq])
  rw [m2 _ "disabilities" _ (by simp) (by
    intro p hp
    simp only [List.mem_cons, List.not_mem_nil, or_false] at hp
    rcases hp with rfl | rfl | rfl | rfl | rfl | rfl | rfl | rfl | rfl <;> simp)]
  rw [m2 _ "medical-conditions" _ (by simp) (by
    intro p hp
    simp only [List.mem_cons, List.not_mem_nil, or_false] at hp
    rcases hp with rfl | rfl | rfl | rfl | rfl | rfl | rfl | rfl | rfl <;> simp)]
  rw [m2 _ "location" _ (by simp) (by
    intro p hp
    simp only [List.mem_cons, List.not_mem_nil, or_false] at hp
    rcases hp with rfl | rfl | rfl | rfl | rfl | rfl | rfl | rfl | rfl <;> simp)]

/-! ## Decoding an encoded profile -/

theorem filterStrings_map_str (l : List String) : filterStrings (l.map Json.str) = l := by
  induction l with
  | nil => rfl
  | cons s t ih =>
    simp only [filterStrings] at ih
    simp only [filterStrings, List.map_cons, List.filterMap_cons]
    rw [ih]

theorem stringifyStrArr_ne_empty (l : List String) : stringifyStrArr l ≠ "" := by
  intro h
  have : (stringifyStrArr l).data = [] := by rw [h]
  rw [stringifyStrArr] at this
  exact List.noConfusion this

/-- `safeParseArray` on a non-empty string that is not valid JSON comma-splits it. -/
theorem safeParseArray_split (fuel : Nat) (s : String) (hne : ¬s = "")
    (hp : parseJsonStr s = none) :
    safeParseArray fuel (some (Json.str s)) = Except.ok (splitTrim s) := by
  rw [safeParseArray.eq_def]
  simp [jsTruthy, hne, hp]

/-- `safeParseArray` on a stringified array of strings recovers the strings. -/
theorem safeParseArray_stringifyStrArr (fuel : Nat) (l : List String) :
    safeParseArray (fuel + 1) (some (Json.str (stringifyStrArr l))) = Except.ok l := by
  have hstep : safeParseArray (fuel + 1) (some (Json.str (stringifyStrArr l))) =
      safeParseArray fuel (some (Json.arr (l.map Json.str))) := by
    rw [safeParseArray.eq_def]
    simp [jsTruthy, stringifyStrArr_ne_empty l, parseJsonStr_stringifyStrArr l]
  rw [hstep, safeParseArray.eq_def]
  simp [jsTruthy, filterStrings_map_str]

theorem raceOptions_split :
    ∀ r ∈ raceOptions, ¬r = "" ∧ (parseJsonStr r).isNone ∧ splitTrim r = [r] := by
  decide

theorem btoaBytes_ne_nil {bs : List Nat} (h : bs ≠ []) : btoaBytes bs ≠ [] := by
  match bs with
  | [] => exact absurd rfl h
  | [b1] => rw [btoaBytes]; exact fun hc => List.noConfusion hc
  | [b1, b2] => rw [btoaBytes]; exact fun hc => List.noConfusion hc
  | b1 :: b2 :: b3 :: rest => rw [btoaBytes]; exact fun hc => List.noConfusion hc

theorem encodeURIComponentS_ne_empty {s : String} (h : s.data ≠ []) :
    ¬encodeURIComponentS s = "" := by
  intro hc
  have hd : (encodeURIComponentS s).data = [] := by rw [hc]
  rw [encodeURIComponentS] at hd
  simp only [String.data] at hd
  match hs : s.data, h with
  | c :: t, _ =>
    rw [hs, List.flatMap_cons] at hd
    rcases List.append_eq_nil.mp hd with ⟨h1, _⟩
    by_cases hu : isUriUnreserved c
    · rw [if_pos hu] at h1
      exact List.noConfusion h1
    · rw [if_neg hu] at h1
      have h8 : utf8EncodeChar c ≠ [] := by
        rw [utf8EncodeChar]
        split_ifs <;> exact fun hx => List.noConfusion hx
      match hu8 : utf8EncodeChar c, h8 with
      | b :: bt, _ =>
        rw [hu8, List.flatMap_cons] at h1
        rcases List.append_eq_nil.mp h1 with ⟨h2, _⟩
        exact List.noConfusion h2

/-- The master round-trip computation: decoding an encoded profile recovers the
scalar fields and the multi-value lists verbatim, except that `race` collapses to the
singleton holding the last selected race value. -/
theorem decode_encode_profile (P : Profile) (r0 : String) (rs : List String)
    (hr : P.race = r0 :: rs) (hlatin : profileLatin1 P)
    (hcat : ∀ r ∈ P.race, r ∈ raceOptions) :
    ∃ t, encodeProfile P = Except.ok t ∧
      decodeUserProfile (some t) = some
        { name := some (Json.str P.name)
          gender := some (Json.str P.gender)
          homeless := some (Json.str P.homeless)
          race := [lastD rs r0]
          interests := P.interests
          disabilities := P.disabilities
          medicalConditions := P.medicalConditions
          location := some (Json.str P.location) } := by
  obtain ⟨hn, hg, hh, hrc, hi, hdis, hmed, hloc⟩ := hlatin
  set L := [("name", P.name), ("gender", P.gender), ("homeless", P.homeless),
       ("race", lastD rs r0),
       ("interest", stringifyStrArr P.interests),
       ("disabilities", stringifyStrArr P.disabilities),
       ("medical-conditions", stringifyStrArr P.medicalConditions),
       ("location", P.location),
       ("interests", stringifyStrArr P.interests)] with hL
  have hED : encodeData P = L := encodeData_eq P r0 rs hr
  have hlast_mem : lastD rs r0 ∈ P.race := by rw [hr]; exact lastD_mem rs r0
  have hlatinJson : ∀ d ∈ (stringifyFlatObj L).data, d.toNat ≤ 255 := by
    apply stringifyFlatObj_latin1
    · intro p hp
      rw [hL] at hp
      simp only [List.mem_cons, List.not_mem_nil, or_false] at hp
      rcases hp with rfl | rfl | rfl | rfl | rfl | rfl | rfl | rfl | rfl
      · exact (by decide : ∀ c ∈ ("name" : String).data, c.toNat ≤ 255)
      · exact (by decide : ∀ c ∈ ("gender" : String).data, c.toNat ≤ 255)
      · exact (by decide : ∀ c ∈ ("homeless" : String).data, c.toNat ≤ 255)
      · exact (by decide : ∀ c ∈ ("race" : String).data, c.toNat ≤ 255)
      · exact (by decide : ∀ c ∈ ("interest" : String).data, c.toNat ≤ 255)
      · exact (by decide : ∀ c ∈ ("disabilities" : String).data, c.toNat ≤ 255)
      · exact (by decide : ∀ c ∈ ("medical-conditions" : String).data, c.toNat ≤ 255)
      · exact (by decide : ∀ c ∈ ("location" : String).data, c.toNat ≤ 255)
      · exact (by decide : ∀ c ∈ ("interests" : String).data, c.toNat ≤ 255)
    · intro p hp
      rw [hL] at hp
      simp only [List.mem_cons, List.not_mem_nil, or_false] at hp
      rcases hp with rfl | rfl | rfl | rfl | rfl | rfl | rfl | rfl | rfl
      · exact hn
      · exact hg
      · exact hh
      · exact hrc _ hlast_mem
      · exact stringifyStrArr_latin1 _ hi
      · exact stringifyStrArr_latin1 _ hdis
      · exact stringifyStrArr_latin1 _ hmed
      · exact hloc
      · exact stringifyStrArr_latin1 _ hi
  have hjson_ne : (stringifyFlatObj L).data ≠ [] := by
    rw [stringifyFlatObj]
    exact fun hc => List.noConfusion hc
  obtain ⟨hbtoa, hatob⟩ := atobS_btoaS (stringifyFlatObj L) hlatinJson
  set b64 : String := ⟨btoaBytes ((stringifyFlatObj L).data.map Char.toNat)⟩ with hb64
  have hb64ascii : ∀ c ∈ b64.data, c.toNat < 128 := by
    intro c hc
    exact btoaBytes_lt128 _ (by
      intro b hb
      obtain ⟨d, hd, rfl⟩ := List.mem_map.mp hb
      have := hlatinJson d hd
      omega) c hc
  have hb64ne : b64.data ≠ [] := by
    rw [hb64]
    exact btoaBytes_ne_nil (by
      intro hc
      exact hjson_ne (List.map_eq_nil_iff.mp hc))
  refine ⟨encodeURIComponentS b64, ?_, ?_⟩
  · rw [encodeProfile, hED, hbtoa]
    rfl
  · rw [decodeUserProfile]
    rw [if_neg (encodeURIComponentS_ne_empty hb64ne)]
    have htry : decodeUserProfileTry (encodeURIComponentS b64) = Except.ok
        { name := some (Json.str P.name)
          gender := some (Json.str P.gender)
          homeless := some (Json.str P.homeless)
          race := [lastD rs r0]
          interests := P.interests
          disabilities := P.disabilities
          medicalConditions := P.medicalConditions
          location := some (Json.str P.location) } := by
      rw [decodeUserProfileTry]
      rw [decodeURIComponentS_encodeURIComponentS b64 hb64ascii]
      show (decodeBase64 b64).bind _ = _
      rw [decodeBase64, hatob]
      show (match parseJsonStr (stringifyFlatObj L) with
        | some v => Except.ok v
        | none => Except.error "SyntaxError").bind _ = _
      rw [parseJsonStr_stringifyFlatObj L]
      show (safeParseArray safeParseFuel (jsGet (Json.obj (L.map
        (fun p => (p.1, Json.str p.2)))) "race")).bind _ = _
      have hrace_get : jsGet (Json.obj (L.map (fun p => (p.1, Json.str p.2)))) "race" =
          some (Json.str (lastD rs r0)) := by
        rw [hL]
        simp [jsGet, jsGetL]
      have hint_get : jsGet (Json.obj (L.map (fun p => (p.1, Json.str p.2)))) "interest" =
          some (Json.str (stringifyStrArr P.interests)) := by
        rw [hL]
        simp [jsGet, jsGetL]
      have hdis_get : jsGet (Json.obj (L.map (fun p => (p.1, Json.str p.2))))
          "disabilities" = some (Json.str (stringifyStrArr P.disabilities)) := by
        rw [hL]
        simp [jsGet, jsGetL]
      have hmed_get : jsGet (Json.obj (L.map (fun p => (p.1, Json.str p.2))))
          "medical-conditions" = some (Json.str (stringifyStrArr P.medicalConditions)) := by
        rw [hL]
        simp [jsGet, jsGetL]
      have hname_get : jsGet (Json.obj (L.map (fun p => (p.1, Json.str p.2)))) "name" =
          some (Json.str P.name) := by
        rw [hL]
        simp [jsGet, jsGetL]
      have hgen_get : jsGet (Json.obj (L.map (fun p => (p.1, Json.str p.2)))) "gender" =
          some (Json.str P.gender) := by
        rw [hL]
        simp [jsGet, jsGetL]
      have hhom_get : jsGet (Json.obj (L.map (fun p => (p.1, Json.str p.2)))) "homeless" =
          some (Json.str P.homeless) := by
        rw [hL]
        simp [jsGet, jsGetL]
      have hloc_get : jsGet (Json.obj (L.map (fun p => (p.1, Json.str p.2)))) "location" =
          some (Json.str P.location) := by
        rw [hL]
        simp [jsGet, jsGetL]
      obtain ⟨hrne, hrparse, hrsplit⟩ := raceOptions_split _ (hcat _ hlast_mem)
      rw [hrace_get, safeParseArray_split safeParseFuel _ hrne
        (Option.isNone_iff_eq_none.mp hrparse), hrsplit]
      show (safeParseArray safeParseFuel _).bind _ = _
      rw [hint_get, show safeParseFuel = 9999 + 1 from rfl,
        safeParseArray_stringifyStrArr 9999 P.interests]
      show (safeParseArray (9999 + 1) _).bind _ = _
      rw [hdis_get, safeParseArray_stringifyStrArr 9999 P.disabilities]
      show (safeParseArray (9999 + 1) _).bind _ = _
      rw [hmed_get, safeParseArray_stringifyStrArr 9999 P.medicalConditions]
      show Except.ok _ = _
      rw [hname_get, hgen_get, hhom_get, hloc_get]
    rw [htry]

/-! ## Supporting lemmas for the claims -/

theorem string_eq_of_data {s t : String} (h : s.data = t.data) : s = t := by
  cases s
  cases t
  exact congrArg String.mk h

/-- Two strings built as `prefix ++ middle ++ "-" ++ suffix` differ whenever their
prefixes have equal length but different characters. -/
theorem jobIds_ne {p q : String} (hl : p.data.length = q.data.length)
    (hne : ¬p.data = q.data) (b1 c1 b2 c2 : String) :
    ¬(p ++ b1 ++ "-" ++ c1 = q ++ b2 ++ "-" ++ c2) := by
  intro h
  have h2 := congrArg String.data h
  simp only [String.data_append, List.append_assoc] at h2
  exact hne (List.append_inj h2 hl).1

theorem exists_five {α : Type} (l : List α) (h : 5 ≤ l.length) :
    ∃ a b c d e t, l = a :: b :: c :: d :: e :: t := by
  obtain ⟨a, l1, rfl⟩ : ∃ x t, l = x :: t := by
    cases l with
    | nil => simp at h
    | cons x t => exact ⟨x, t, rfl⟩
  obtain ⟨b, l2, rfl⟩ : ∃ x t, l1 = x :: t := by
    cases l1 with
    | nil => simp at h
    | cons x t => exact ⟨x, t, rfl⟩
  obtain ⟨c, l3, rfl⟩ : ∃ x t, l2 = x :: t := by
    cases l2 with
    | nil => simp at h
    | cons x t => exact ⟨x, t, rfl⟩
  obtain ⟨d, l4, rfl⟩ : ∃ x t, l3 = x :: t := by
    cases l3 with
    | nil => simp at h
    | cons x t => exact ⟨x, t, rfl⟩
  obtain ⟨e, l5, rfl⟩ : ∃ x t, l4 = x :: t := by
    cases l4 with
    | nil => simp at h
    | cons x t => exact ⟨x, t, rfl⟩
  exact ⟨a, b, c, d, e, l5, rfl⟩

theorem baseJobs_location (lp : String) (now : Nat) :
    ∀ j ∈ SearchJobs.baseJobs lp now, j.location = lp := by
  intro j hj
  simp only [SearchJobs.baseJobs, List.mem_cons, List.not_mem_nil, or_false] at hj
  rcases hj with rfl | rfl | rfl | rfl | rfl | rfl | rfl | rfl | rfl | rfl <;> rfl

theorem dedupeGo_eq_self (seen : List String) (l : List SearchJobs.JobListing)
    (hseen : ∀ j ∈ l, seen.contains j.id = false)
    (hpw : l.Pairwise (fun a b => ¬a.id = b.id)) :
    SearchJobs.dedupeGo seen l = l := by
  induction l generalizing seen with
  | nil => rfl
  | cons j t ih =>
    show (if seen.contains j.id = true then SearchJobs.dedupeGo seen t
          else j :: SearchJobs.dedupeGo (j.id :: seen) t) = j :: t
    rw [if_neg (by simpa using hseen j (List.mem_cons_self j t))]
    congr 1
    apply ih
    · intro x hx
      have h1 : ¬j.id = x.id := (List.pairwise_cons.mp hpw).1 x hx
      have h2 := hseen x (by simp [hx])
      simp only [List.contains_cons, Bool.or_eq_false_iff]
      constructor
      · simpa [beq_iff_eq] using fun hc => h1 hc.symm
      · exact h2
    · exact (List.pairwise_cons.mp hpw).2

theorem dedupeById_eq_self (l : List SearchJobs.JobListing)
    (hpw : l.Pairwise (fun a b => ¬a.id = b.id)) :
    SearchJobs.dedupeById l = l :=
  dedupeGo_eq_self [] l (fun _ _ => rfl) hpw

theorem safeParseArray_arr (fuel : Nat) (xs : List Json) :
    safeParseArray fuel (some (Json.arr xs)) = Except.ok (filterStrings xs) := by
  rw [safeParseArray.eq_def]
  simp [jsTruthy]

theorem safeParseArray_parse_rec (fuel : Nat) (s : String) (w : Json) (hne : ¬s = "")
    (hp : parseJsonStr s = some w) :
    safeParseArray (fuel + 1) (some (Json.str s)) = safeParseArray fuel (some w) := by
  rw [safeParseArray.eq_def]
  simp [jsTruthy, hne, hp]

theorem sanitizeArray_arr (fuel : Nat) (xs : List Json) :
    TrainingPlan.sanitizeArray fuel (some (Json.arr xs)) = filterStrings xs := by
  rw [TrainingPlan.sanitizeArray.eq_def]
  simp [jsTruthy]

theorem sanitizeArray_parse_rec (fuel : Nat) (s : String) (w : Json) (hne : ¬s = "")
    (hp : parseJsonStr s = some w) :
    TrainingPlan.sanitizeArray (fuel + 1) (some (Json.str s)) =
      TrainingPlan.sanitizeArray fuel (some w) := by
  rw [TrainingPlan.sanitizeArray.eq_def]
  simp [jsTruthy, hne, hp]

theorem sanitizeArray_split (fuel : Nat) (s : String) (hne : ¬s = "")
    (hp : parseJsonStr s = none) :
    TrainingPlan.sanitizeArray fuel (some (Json.str s)) = splitTrim s := by
  rw [TrainingPlan.sanitizeArray.eq_def]
  simp [jsTruthy, hne, hp]

theorem sanitizeArray_stringifyStrArr (fuel : Nat) (l : List String) :
    TrainingPlan.sanitizeArray (fuel + 1) (some (Json.str (stringifyStrArr l))) = l := by
  rw [sanitizeArray_parse_rec fuel _ _ (stringifyStrArr_ne_empty l)
    (parseJsonStr_stringifyStrArr l)]
  rw [sanitizeArray_arr, filterStrings_map_str]

theorem simplifyErrs_nil (f : List SearchJobs.JobListing)
    (sOut : SearchJobs.JobListing → Upstream)
    (hall : ∀ j ∈ f, ∃ v, Aggregator.simplifyHandler (sOut j) = Except.ok v) :
    f.filterMap (fun j =>
      match Aggregator.simplifyHandler (sOut j) with
      | Except.error m => some m
      | Except.ok _ => none) = [] := by
  induction f with
  | nil => rfl
  | cons j t ih =>
    obtain ⟨v, hv⟩ := hall j (by simp)
    simp only [List.filterMap_cons, hv]
    exact ih (fun x hx => hall x (by simp [hx]))

theorem simplify_status (payload : Json) (key : Option String) (up : Upstream)
    (hv : SimplifyJob.validBody payload = true) :
    (SimplifyJob.simplifyPOST (Except.ok payload) key up).1 = 200 := by
  simp only [SimplifyJob.simplifyPOST, hv, Bool.not_true, Bool.false_eq_true, if_false]
  rcases key with _ | k
  · rfl
  · rcases up with m | ⟨ok, body⟩
    · rfl
    · cases ok
      · rfl
      · rcases body with e | data
        · rfl
        · cases h : parseModelResponseObj (extractGeminiText data)
          · simp [h]
          · simp [h]

theorem training_status (payload : Json) (key : Option String) (up : Upstream)
    (hv : TrainingPlan.validBody payload = true) :
    (TrainingPlan.trainingPOST (Except.ok payload) key up).1 = 200 := by
  simp only [TrainingPlan.trainingPOST, hv, Bool.not_true, Bool.false_eq_true, if_false]
  rcases key with _ | k
  · rfl
  · rcases up with m | ⟨ok, body⟩
    · rfl
    · cases ok
      · rfl
      · rcases body with e | data
        · rfl
        · cases h : parseModelResponseObj (extractGeminiText data)
          · simp [h]
          · simp [h]

theorem fst_ite_200 {α : Type} (c : Prop) [inst : Decidable c] (x y : α) :
    (if c then (200, x) else (200, y)).1 = 200 := by
  split
  · rfl
  · rfl

theorem fallbackUsedOf_ite (c : Prop) [inst : Decidable c] (m : String)
    (jl jobs : List SearchJobs.JobListing) :
    SearchJobs.fallbackUsedOf
        (if c then (200, SearchJobs.SearchResponse.errorJobs m jl)
         else (200, SearchJobs.SearchResponse.jobsOk jobs false)).2 = none ∨
      SearchJobs.fallbackUsedOf
        (if c then (200, SearchJobs.SearchResponse.errorJobs m jl)
         else (200, SearchJobs.SearchResponse.jobsOk jobs false)).2 = some false := by
  split
  · left; rfl
  · right; rfl

theorem search_status (payload : Json) (key : Option String) (up : Upstream)
    (now : Nat) (rand randAI : Nat → String)
    (shuffle : List SearchJobs.JobListing → List SearchJobs.JobListing)
    (hv : jsTruthyOpt (jsGet payload "location") = true) :
    (SearchJobs.searchJobsPOST (Except.ok payload) key up now rand randAI shuffle).1 = 200 ∨
      (SearchJobs.searchJobsPOST (Except.ok payload) key up now rand randAI shuffle).1 = 500 := by
  rcases h : jsGet payload "location" with _ | v
  · rw [h] at hv
    simp [jsTruthyOpt] at hv
  · rw [h] at hv
    simp only [SearchJobs.searchJobsPOST, h, hv, Bool.not_true, Bool.false_eq_true, if_false]
    rcases v with _ | b | ⟨z, lex⟩ | s | elems | fields
    · right; rfl
    · right; rfl
    · right; rfl
    · left
      exact fst_ite_200 _ _ _
    · right; rfl
    · right; rfl

/-! ## The claims -/

/-- C2: the profile decode operation is total and never throws to its caller: every
error thrown inside `decodeUserProfile`'s try block is converted to `null`, every
string input yields either a profile or `null`, and the empty string, non-base64 text
and a non-JSON base64 payload all yield `null`. -/
theorem C2_decode_never_throws :
    (∀ s e, decodeUserProfileTry s = Except.error e → decodeUserProfile (some s) = none) ∧
    (∀ s, decodeUserProfile (some s) = none ∨ ∃ q, decodeUserProfile (some s) = some q) ∧
    decodeUserProfile (some "") = none ∧
    decodeUserProfile (some "not base64 !!!") = none ∧
    decodeUserProfile (some "aGVsbG8=") = none := by
  refine ⟨?_, ?_, rfl, rfl, rfl⟩
  · intro s e h
    simp only [decodeUserProfile]
    by_cases hs : s = ""
    · rw [if_pos hs]
    · rw [if_neg hs, h]
  · intro s
    cases h : decodeUserProfile (some s) with
    | none => exact Or.inl rfl
    | some q => exact Or.inr ⟨q, rfl⟩

/-- C2 witness: `decodeUserProfileTry "x"` throws (a lone base64 character is an
`InvalidCharacterError`), and the catch converts it to `null`. -/
theorem C2_decode_never_throws_witness :
    decodeUserProfile (some "x") = none :=
  C2_decode_never_throws.1 "x" "InvalidCharacterError" rfl

/-- C4: the fenced-code-block tier of the search-jobs `parseModelResponse` is
unreachable for unparsable content: the whole body sits in one `try` whose direct
`JSON.parse` throws first and lands in the `catch`, which returns `[]`.  The claimed
input (a fenced ```json block holding `[{"id":"x"}]`) therefore yields `[]`, although
the fenced payload itself is valid JSON. -/
theorem C4_fence_tier_unreachable :
    SearchJobs.parseModelResponse (some (String.mk
      ([Char.ofNat 96, Char.ofNat 96, Char.ofNat 96] ++
        ("json\n[\x7b\"id\":\"x\"\x7d]\n").data ++
        [Char.ofNat 96, Char.ofNat 96, Char.ofNat 96]))) = Json.arr [] ∧
    parseJsonStr "[\x7b\"id\":\"x\"\x7d]" = some (Json.arr [Json.obj [("id", Json.str "x")]]) :=
  ⟨rfl, rfl⟩

/-- C6 (amended): each route answers 400 exactly when the body is unparsable or fails
that route's own validation — for simplify-job the validation also rejects an *empty*
`jobDescription` string (not only a missing or non-string one), for training-plan it
rejects bodies where both `jobTitle` and `currentSkills` are *falsy* (not only
absent), and for search-jobs a falsy `location` is rejected. -/
theorem C6_400_iff (body : Except Unit Json) (key : Option String) (up : Upstream) :
    ((SimplifyJob.simplifyPOST body key up).1 = 400 ↔
      body = Except.error () ∨ ∃ p, body = Except.ok p ∧ SimplifyJob.validBody p = false) ∧
    ((TrainingPlan.trainingPOST body key up).1 = 400 ↔
      body = Except.error () ∨ ∃ p, body = Except.ok p ∧ TrainingPlan.validBody p = false) ∧
    (∀ (now : Nat) (rand randAI : Nat → String)
      (shuffle : List SearchJobs.JobListing → List SearchJobs.JobListing),
      (SearchJobs.searchJobsPOST body key up now rand randAI shuffle).1 = 400 ↔
        body = Except.error () ∨
          ∃ p, body = Except.ok p ∧ jsTruthyOpt (jsGet p "location") = false) := by
  rcases body with e | payload
  · refine ⟨⟨fun _ => Or.inl rfl, fun _ => rfl⟩, ⟨fun _ => Or.inl rfl, fun _ => rfl⟩,
      fun now rand randAI shuffle => ⟨fun _ => Or.inl rfl, fun _ => rfl⟩⟩
  · refine ⟨?_, ?_, ?_⟩
    · cases hv : SimplifyJob.validBody payload
      · constructor
        · intro _
          exact Or.inr ⟨payload, rfl, hv⟩
        · intro _
          simp only [SimplifyJob.simplifyPOST, hv]
          rfl
      · constructor
        · intro h400
          rw [simplify_status payload key up hv] at h400
          exact absurd h400 (by decide)
        · rintro (h | ⟨p, hp, hvp⟩)
          · exact Except.noConfusion h
          · rw [Except.ok.injEq] at hp
            rw [← hp, hv] at hvp
            exact Bool.noConfusion hvp
    · cases hv : TrainingPlan.validBody payload
      · constructor
        · intro _
          exact Or.inr ⟨payload, rfl, hv⟩
        · intro _
          simp only [TrainingPlan.trainingPOST, hv]
          rfl
      · constructor
        · intro h400
          rw [training_status payload key up hv] at h400
          exact absurd h400 (by decide)
        · rintro (h | ⟨p, hp, hvp⟩)
          · exact Except.noConfusion h
          · rw [Except.ok.injEq] at hp
            rw [← hp, hv] at hvp
            exact Bool.noConfusion hvp
    · intro now rand randAI shuffle
      cases hv : jsTruthyOpt (jsGet payload "location")
      · constructor
        · intro _
          exact Or.inr ⟨payload, rfl, hv⟩
        · intro _
          simp only [SearchJobs.searchJobsPOST, hv]
          rfl
      · constructor
        · intro h400
          rcases search_status payload key up now rand randAI shuffle hv with h | h
          · rw [h400] at h
            exact absurd h (by decide)
          · rw [h400] at h
            exact absurd h (by decide)
        · rintro (h | ⟨p, hp, hvp⟩)
          · exact Except.noConfusion h
          · rw [Except.ok.injEq] at hp
            rw [← hp, hv] at hvp
            exact Bool.noConfusion hvp

/-- C6 counterexample: a body whose `jobDescription` is present and *is* a string
(the empty string) still gets 400 from the simplify-job route, against the spec's
"missing or not a string" condition. -/
theorem C6_counterexample :
    jsGet (Json.obj [("jobDescription", Json.str "")]) "jobDescription" =
        some (Json.str "") ∧
      (SimplifyJob.simplifyPOST (Except.ok (Json.obj [("jobDescription", Json.str "")]))
          none (Upstream.reject "offline")).1 = 400 :=
  ⟨rfl, rfl⟩

/-- C7 (amended): the search-jobs route's `fallbackUsed` field does not record which
path served the listings — both success returns hardcode it to `false`, so no
response ever carries `fallbackUsed: true` (error-shaped bodies carry no such
field). -/
theorem C7_fallbackUsed_never_true (body : Except Unit Json) (apiKey : Option String)
    (up : Upstream) (now : Nat) (rand randAI : Nat → String)
    (shuffle : List SearchJobs.JobListing → List SearchJobs.JobListing) :
    SearchJobs.fallbackUsedOf
        (SearchJobs.searchJobsPOST body apiKey up now rand randAI shuffle).2 = none ∨
      SearchJobs.fallbackUsedOf
        (SearchJobs.searchJobsPOST body apiKey up now rand randAI shuffle).2 =
          some false := by
  rcases body with e | payload
  · left; rfl
  · cases hv : jsTruthyOpt (jsGet payload "location")
    · left
      simp only [SearchJobs.searchJobsPOST, hv]
      rfl
    · rcases h : jsGet payload "location" with _ | v
      · rw [h] at hv
        simp [jsTruthyOpt] at hv
      · rw [h] at hv
        simp only [SearchJobs.searchJobsPOST, h, hv, Bool.not_true, Bool.false_eq_true,
          if_false]
        rcases v with _ | b | ⟨z, lex⟩ | s | elems | fields
        · left; rfl
        · left; rfl
        · left; rfl
        · exact fallbackUsedOf_ite _ _ _ _
        · left; rfl
        · left; rfl

/-- C1 (amended): decoding an encoded profile preserves the interests, disabilities
and medical-conditions collections and the name/gender/homeless/location scalars, but
the race collection collapses to a singleton holding the *last* checked race value
(`Object.fromEntries` keeps only the last duplicate `race` form entry), so race is
preserved as a set only when at most one race was selected. -/
theorem C1_profile_roundtrip (P : Profile) (r0 : String) (rs : List String)
    (hr : P.race = r0 :: rs) (hlatin : profileLatin1 P)
    (hcat : ∀ r ∈ P.race, r ∈ raceOptions) :
    ∃ t, encodeProfile P = Except.ok t ∧
      decodeUserProfile (some t) = some
        { name := some (Json.str P.name)
          gender := some (Json.str P.gender)
          homeless := some (Json.str P.homeless)
          race := [lastD rs r0]
          interests := P.interests
          disabilities := P.disabilities
          medicalConditions := P.medicalConditions
          location := some (Json.str P.location) } :=
  decode_encode_profile P r0 rs hr hlatin hcat

/-- C1 witness: a concrete two-race profile round-trips with every other field
intact and race collapsed to the last selection. -/
theorem C1_profile_roundtrip_witness :
    ∃ t, encodeProfile
        { name := "Alex", gender := "female", homeless := "no",
          race := ["asian", "black"], interests := ["cooking"], disabilities := [],
          medicalConditions := [], location := "San Diego, CA" } = Except.ok t ∧
      decodeUserProfile (some t) = some
        { name := some (Json.str "Alex"), gender := some (Json.str "female"),
          homeless := some (Json.str "no"), race := ["black"],
          interests := ["cooking"], disabilities := [], medicalConditions := [],
          location := some (Json.str "San Diego, CA") } :=
  C1_profile_roundtrip
    { name := "Alex", gender := "female", homeless := "no",
      race := ["asian", "black"], interests := ["cooking"], disabilities := [],
      medicalConditions := [], location := "San Diego, CA" }
    "asian" ["black"] rfl (by decide) (by decide)

/-- C1 counterexample: the profile that checked both "asian" and "black" decodes to
a race collection that lost "asian", so the decoded race values are not equal as a
set to the encoded ones. -/
theorem C1_counterexample :
    ∃ t q,
      encodeProfile
        { name := "Alex", gender := "female", homeless := "no",
          race := ["asian", "black"], interests := ["cooking"], disabilities := [],
          medicalConditions := [], location := "San Diego, CA" } = Except.ok t ∧
      decodeUserProfile (some t) = some q ∧
      "asian" ∈ (["asian", "black"] : List String) ∧ ¬"asian" ∈ q.race := by
  obtain ⟨t, he, hd⟩ := decode_encode_profile
    { name := "Alex", gender := "female", homeless := "no",
      race := ["asian", "black"], interests := ["cooking"], disabilities := [],
      medicalConditions := [], location := "San Diego, CA" }
    "asian" ["black"] rfl (by decide) (by decide)
  exact ⟨t, _, he, hd, by decide, by decide⟩

/-- C3: with no API key, a search for `{location: "Austin, TX"}` answers 200 with
exactly five listings, pairwise-distinct ids, and every listing located in
"Austin, TX" — for any request time, random suffixes, and any permutation the
random-comparator sort produces. -/
theorem C3_search_hardcoded_five (up : Upstream) (now : Nat) (rand randAI : Nat → String)
    (shuffle : List SearchJobs.JobListing → List SearchJobs.JobListing)
    (hsh : ∀ l, (shuffle l).Perm l) :
    ∃ jobs,
      SearchJobs.searchJobsPOST
          (Except.ok (Json.obj [("location", Json.str "Austin, TX")])) none up now rand
          randAI shuffle = (200, SearchJobs.SearchResponse.jobsOk jobs false) ∧
        jobs.length = 5 ∧ jobs.Pairwise (fun x y => ¬x.id = y.id) ∧
        ∀ j ∈ jobs, j.location = "Austin, TX" := by
  have hperm := hsh (SearchJobs.baseJobs "Austin, TX" now)
  have hlen10 : (SearchJobs.baseJobs "Austin, TX" now).length = 10 := rfl
  have hlen : 5 ≤ (shuffle (SearchJobs.baseJobs "Austin, TX" now)).length := by
    rw [hperm.length_eq, hlen10]
    omega
  obtain ⟨a, b, c, d, e, t, hsplit⟩ := exists_five _ hlen
  have hmemBase : ∀ x, x ∈ shuffle (SearchJobs.baseJobs "Austin, TX" now) →
      x.location = "Austin, TX" := fun x hx =>
    baseJobs_location _ now x (hperm.mem_iff.mp hx)
  have hma : a ∈ shuffle (SearchJobs.baseJobs "Austin, TX" now) := by rw [hsplit]; simp
  have hmb : b ∈ shuffle (SearchJobs.baseJobs "Austin, TX" now) := by rw [hsplit]; simp
  have hmc : c ∈ shuffle (SearchJobs.baseJobs "Austin, TX" now) := by rw [hsplit]; simp
  have hmd : d ∈ shuffle (SearchJobs.baseJobs "Austin, TX" now) := by rw [hsplit]; simp
  have hme : e ∈ shuffle (SearchJobs.baseJobs "Austin, TX" now) := by rw [hsplit]; simp
  refine ⟨[{a with id := "job-" ++ toString (0+1) ++ "-" ++ toString now ++ "-" ++ rand 0},
           {b with id := "job-" ++ toString (1+1) ++ "-" ++ toString now ++ "-" ++ rand 1},
           {c with id := "job-" ++ toString (2+1) ++ "-" ++ toString now ++ "-" ++ rand 2},
           {d with id := "job-" ++ toString (3+1) ++ "-" ++ toString now ++ "-" ++ rand 3},
           {e with id := "job-" ++ toString (4+1) ++ "-" ++ toString now ++ "-" ++ rand 4}],
          ?_, rfl, ?_, ?_⟩
  · have hpw : List.Pairwise (fun x y : SearchJobs.JobListing => ¬x.id = y.id)
        [{a with id := "job-" ++ toString (0+1) ++ "-" ++ toString now ++ "-" ++ rand 0},
         {b with id := "job-" ++ toString (1+1) ++ "-" ++ toString now ++ "-" ++ rand 1},
         {c with id := "job-" ++ toString (2+1) ++ "-" ++ toString now ++ "-" ++ rand 2},
         {d with id := "job-" ++ toString (3+1) ++ "-" ++ toString now ++ "-" ++ rand 3},
         {e with id := "job-" ++ toString (4+1) ++ "-" ++ toString now ++ "-" ++ rand 4}] := by
      refine List.Pairwise.cons ?_ (List.Pairwise.cons ?_ (List.Pairwise.cons ?_
        (List.Pairwise.cons ?_ (List.Pairwise.cons ?_ List.Pairwise.nil))))
      · intro x hx
        simp only [List.mem_cons, List.not_mem_nil, or_false] at hx
        rcases hx with rfl | rfl | rfl | rfl
        · exact jobIds_ne (by decide) (by decide) _ _ _ _
        · exact jobIds_ne (by decide) (by decide) _ _ _ _
        · exact jobIds_ne (by decide) (by decide) _ _ _ _
        · exact jobIds_ne (by decide) (by decide) _ _ _ _
      · intro x hx
        simp only [List.mem_cons, List.not_mem_nil, or_false] at hx
        rcases hx with rfl | rfl | rfl
        · exact jobIds_ne (by decide) (by decide) _ _ _ _
        · exact jobIds_ne (by decide) (by decide) _ _ _ _
        · exact jobIds_ne (by decide) (by decide) _ _ _ _
      · intro x hx
        simp only [List.mem_cons, List.not_mem_nil, or_false] at hx
        rcases hx with rfl | rfl
        · exact jobIds_ne (by decide) (by decide) _ _ _ _
        · exact jobIds_ne (by decide) (by decide) _ _ _ _
      · intro x hx
        simp only [List.mem_cons, List.not_mem_nil, or_false] at hx
        rcases hx with rfl
        exact jobIds_ne (by decide) (by decide) _ _ _ _
      · intro x hx
        exact absurd hx (List.not_mem_nil x)
    have h1 : SearchJobs.searchJobsPOST
        (Except.ok (Json.obj [("location", Json.str "Austin, TX")])) none up now rand
        randAI shuffle =
        (if (SearchJobs.dedupeById (SearchJobs.mapWithIndex
            (fun i job => { job with
              id := "job-" ++ toString (i + 1) ++ "-" ++ toString now ++ "-" ++ rand i })
            0 ((shuffle (SearchJobs.baseJobs "Austin, TX" now)).take 5))).isEmpty = true
         then (200, SearchJobs.SearchResponse.errorJobs
            "Unable to generate job listings. Please try again or contact support." [])
         else (200, SearchJobs.SearchResponse.jobsOk
            ((SearchJobs.dedupeById (SearchJobs.mapWithIndex
              (fun i job => { job with
                id := "job-" ++ toString (i + 1) ++ "-" ++ toString now ++ "-" ++ rand i })
              0 ((shuffle (SearchJobs.baseJobs "Austin, TX" now)).take 5))).take 5)
            false)) := rfl
    rw [h1, hsplit]
    have htake : (a :: b :: c :: d :: e :: t).take 5 = [a, b, c, d, e] := rfl
    rw [htake]
    have hmap : SearchJobs.mapWithIndex
        (fun i job => { job with
          id := "job-" ++ toString (i + 1) ++ "-" ++ toString now ++ "-" ++ rand i })
        0 [a, b, c, d, e] =
        [{a with id := "job-" ++ toString (0+1) ++ "-" ++ toString now ++ "-" ++ rand 0},
         {b with id := "job-" ++ toString (1+1) ++ "-" ++ toString now ++ "-" ++ rand 1},
         {c with id := "job-" ++ toString (2+1) ++ "-" ++ toString now ++ "-" ++ rand 2},
         {d with id := "job-" ++ toString (3+1) ++ "-" ++ toString now ++ "-" ++ rand 3},
         {e with id := "job-" ++ toString (4+1) ++ "-" ++ toString now ++ "-" ++ rand 4}] :=
      rfl
    rw [hmap, dedupeById_eq_self _ hpw]
    rfl
  · refine List.Pairwise.cons ?_ (List.Pairwise.cons ?_ (List.Pairwise.cons ?_
      (List.Pairwise.cons ?_ (List.Pairwise.cons ?_ List.Pairwise.nil))))
    · intro x hx
      simp only [List.mem_cons, List.not_mem_nil, or_false] at hx
      rcases hx with rfl | rfl | rfl | rfl
      · exact jobIds_ne (by decide) (by decide) _ _ _ _
      · exact jobIds_ne (by decide) (by decide) _ _ _ _
      · exact jobIds_ne (by decide) (by decide) _ _ _ _
      · exact jobIds_ne (by decide) (by decide) _ _ _ _
    · intro x hx
      simp only [List.mem_cons, List.not_mem_nil, or_false] at hx
      rcases hx with rfl | rfl | rfl
      · exact jobIds_ne (by decide) (by decide) _ _ _ _
      · exact jobIds_ne (by decide) (by decide) _ _ _ _
      · exact jobIds_ne (by decide) (by decide) _ _ _ _
    · intro x hx
      simp only [List.mem_cons, List.not_mem_nil, or_false] at hx
      rcases hx with rfl | rfl
      · exact jobIds_ne (by decide) (by decide) _ _ _ _
      · exact jobIds_ne (by decide) (by decide) _ _ _ _
    · intro x hx
      simp only [List.mem_cons, List.not_mem_nil, or_false] at hx
      rcases hx with rfl
      exact jobIds_ne (by decide) (by decide) _ _ _ _
    · intro x hx
      exact absurd hx (List.not_mem_nil x)
  · intro j hj
    simp only [List.mem_cons, List.not_mem_nil, or_false] at hj
    rcases hj with rfl | rfl | rfl | rfl | rfl
    · exact hmemBase a hma
    · exact hmemBase b hmb
    · exact hmemBase c hmc
    · exact hmemBase d hmd
    · exact hmemBase e hme

/-- C3 witness: the identity permutation at time 0 with constant random suffixes. -/
theorem C3_search_hardcoded_five_witness :
    ∃ jobs,
      SearchJobs.searchJobsPOST
          (Except.ok (Json.obj [("location", Json.str "Austin, TX")])) none
          (Upstream.reject "offline") 0 (fun _ => "r") (fun _ => "s") (fun l => l) =
          (200, SearchJobs.SearchResponse.jobsOk jobs false) ∧
        jobs.length = 5 ∧ jobs.Pairwise (fun x y => ¬x.id = y.id) ∧
        ∀ j ∈ jobs, j.location = "Austin, TX" :=
  C3_search_hardcoded_five (Upstream.reject "offline") 0 (fun _ => "r") (fun _ => "s")
    (fun l => l) (fun l => List.Perm.refl l)

/-- C10 (amended): the encoder throws (`btoa` raises `InvalidCharacterError`) whenever
the *retained* form data carries a code point above 255 — in particular whenever the
name field does; but not for every profile field: a non-final race selection is
dropped by `Object.fromEntries` before `btoa` ever sees it. -/
theorem C10_encode_partial (P : Profile) (r0 : String) (rs : List String) (c : Char)
    (hr : P.race = r0 :: rs) (hc : c ∈ P.name.data) (hbig : 255 < c.toNat) :
    encodeProfile P = Except.error "InvalidCharacterError" := by
  have hpair : (("name", P.name) : String × String) ∈
      [("name", P.name), ("gender", P.gender), ("homeless", P.homeless),
       ("race", lastD rs r0),
       ("interest", stringifyStrArr P.interests),
       ("disabilities", stringifyStrArr P.disabilities),
       ("medical-conditions", stringifyStrArr P.medicalConditions),
       ("location", P.location),
       ("interests", stringifyStrArr P.interests)] := by simp
  have hmem : c ∈ (stringifyFlatObj (encodeData P)).data := by
    rw [encodeData_eq P r0 rs hr]
    exact mem_stringifyFlatObj_big hpair hc hbig
  have hall : ((stringifyFlatObj (encodeData P)).data.all
      (fun c => c.toNat ≤ 255)) = false := by
    cases hb : (stringifyFlatObj (encodeData P)).data.all (fun c => c.toNat ≤ 255)
    · rfl
    · have hle := List.all_eq_true.mp hb c hmem
      simp at hle
      omega
  rw [encodeProfile, btoaS, hall]
  rfl

/-- C10 witness: a name holding U+03C0 makes the encoder throw. -/
theorem C10_encode_partial_witness :
    encodeProfile
      { name := String.mk [Char.ofNat 960], gender := "female", homeless := "no",
        race := ["asian"], interests := [], disabilities := [],
        medicalConditions := [], location := "SD" } =
      Except.error "InvalidCharacterError" :=
  C10_encode_partial
    { name := String.mk [Char.ofNat 960], gender := "female", homeless := "no",
      race := ["asian"], interests := [], disabilities := [],
      medicalConditions := [], location := "SD" }
    "asian" [] (Char.ofNat 960) rfl (by decide) (by decide)

set_option maxRecDepth 8192 in
/-- C10 counterexample: a profile carrying the code point 256 in a *non-final* race
selection still encodes successfully — the duplicate-key collapse drops that value
before `btoa` runs — so "a character above 255 in any field" does not imply a
throw. -/
theorem C10_counterexample :
    Char.ofNat 256 ∈ (String.mk [Char.ofNat 256]).data ∧
      255 < (Char.ofNat 256).toNat ∧
      encodeProfile
        { name := "Alex", gender := "female", homeless := "no",
          race := [String.mk [Char.ofNat 256], "asian"], interests := ["cooking"],
          disabilities := [], medicalConditions := [], location := "San Diego, CA" } =
        Except.ok "eyJuYW1lIjoiQWxleCIsImdlbmRlciI6ImZlbWFsZSIsImhvbWVsZXNzIjoibm8iLCJyYWNlIjoiYXNpYW4iLCJpbnRlcmVzdCI6IltcImNvb2tpbmdcIl0iLCJkaXNhYmlsaXRpZXMiOiJbXSIsIm1lZGljYWwtY29uZGl0aW9ucyI6IltdIiwibG9jYXRpb24iOiJTYW4gRGllZ28sIENBIiwiaW50ZXJlc3RzIjoiW1wiY29va2luZ1wiXSJ9" :=
  ⟨by decide, by decide, rfl⟩

/-- C5: every upstream failure — a rejected fetch, a non-2xx response, an unreadable
response body, or a completion that fails to parse — makes the simplify-job and
training-plan routes answer HTTP 200 with their static fallback record, whose
`provider` field is `"fallback"`. -/
theorem C5_upstream_failure_fallback (payload : Json) (k : String) (up : Upstream)
    (hs : SimplifyJob.validBody payload = true)
    (ht : TrainingPlan.validBody payload = true)
    (hfail : (∃ m, up = Upstream.reject m) ∨ (∃ b, up = Upstream.resp false b) ∨
      up = Upstream.resp true (Except.error ()) ∨
      ∃ d, up = Upstream.resp true (Except.ok d) ∧
        parseModelResponseObj (extractGeminiText d) = none) :
    SimplifyJob.simplifyPOST (Except.ok payload) (some k) up =
        (200, SimplifyJob.FALLBACK_SIMPLIFIED_JOB) ∧
      TrainingPlan.trainingPOST (Except.ok payload) (some k) up =
        (200, TrainingPlan.FALLBACK_PLAN) ∧
      jsGet SimplifyJob.FALLBACK_SIMPLIFIED_JOB "provider" = some (Json.str "fallback") ∧
      jsGet TrainingPlan.FALLBACK_PLAN "provider" = some (Json.str "fallback") := by
  refine ⟨?_, ?_, rfl, rfl⟩
  · rcases hfail with ⟨m, rfl⟩ | ⟨b, rfl⟩ | rfl | ⟨d, rfl, hd⟩
    · simp only [SimplifyJob.simplifyPOST, hs]
      rfl
    · simp only [SimplifyJob.simplifyPOST, hs]
      rfl
    · simp only [SimplifyJob.simplifyPOST, hs]
      rfl
    · simp only [SimplifyJob.simplifyPOST, hs, hd]
      rfl
  · rcases hfail with ⟨m, rfl⟩ | ⟨b, rfl⟩ | rfl | ⟨d, rfl, hd⟩
    · simp only [TrainingPlan.trainingPOST, ht]
      rfl
    · simp only [TrainingPlan.trainingPOST, ht]
      rfl
    · simp only [TrainingPlan.trainingPOST, ht]
      rfl
    · simp only [TrainingPlan.trainingPOST, ht, hd]
      rfl

/-- C5 witness: a network rejection on a valid body gives the fallback with 200 on
both routes. -/
theorem C5_upstream_failure_fallback_witness :
    SimplifyJob.simplifyPOST
        (Except.ok (Json.obj [("jobDescription", Json.str "desc"),
          ("jobTitle", Json.str "Greeter")]))
        (some "key") (Upstream.reject "network down") =
        (200, SimplifyJob.FALLBACK_SIMPLIFIED_JOB) ∧
      TrainingPlan.trainingPOST
        (Except.ok (Json.obj [("jobDescription", Json.str "desc"),
          ("jobTitle", Json.str "Greeter")]))
        (some "key") (Upstream.reject "network down") =
        (200, TrainingPlan.FALLBACK_PLAN) ∧
      jsGet SimplifyJob.FALLBACK_SIMPLIFIED_JOB "provider" = some (Json.str "fallback") ∧
      jsGet TrainingPlan.FALLBACK_PLAN "provider" = some (Json.str "fallback") :=
  C5_upstream_failure_fallback
    (Json.obj [("jobDescription", Json.str "desc"), ("jobTitle", Json.str "Greeter")])
    "key" (Upstream.reject "network down") rfl rfl (Or.inl ⟨"network down", rfl⟩)

/-- C8: each multi-value field parser tries, in order, (a) an already-structured
array (keeping only its strings), (b) a JSON parse of the string followed by a
recursive pass over the parsed value, (c) a comma split with trimming; an absent
field and an encoded empty array both give the empty collection without error.
`safeParseArray` (results page) and `sanitizeArray` (training route) share the
structure. -/
theorem C8_three_tiers (fuel : Nat) :
    (∀ xs, safeParseArray fuel (some (Json.arr xs)) = Except.ok (filterStrings xs)) ∧
    (∀ s w, ¬s = "" → parseJsonStr s = some w →
      safeParseArray (fuel + 1) (some (Json.str s)) = safeParseArray fuel (some w)) ∧
    (∀ s, ¬s = "" → parseJsonStr s = none →
      safeParseArray fuel (some (Json.str s)) = Except.ok (splitTrim s)) ∧
    (∀ l, safeParseArray (fuel + 1) (some (Json.str (stringifyStrArr l))) =
      Except.ok l) ∧
    safeParseArray fuel none = Except.ok [] ∧
    (∀ xs, TrainingPlan.sanitizeArray fuel (some (Json.arr xs)) = filterStrings xs) ∧
    (∀ s w, ¬s = "" → parseJsonStr s = some w →
      TrainingPlan.sanitizeArray (fuel + 1) (some (Json.str s)) =
        TrainingPlan.sanitizeArray fuel (some w)) ∧
    (∀ s, ¬s = "" → parseJsonStr s = none →
      TrainingPlan.sanitizeArray fuel (some (Json.str s)) = splitTrim s) ∧
    (∀ l, TrainingPlan.sanitizeArray (fuel + 1) (some (Json.str (stringifyStrArr l))) =
      l) ∧
    TrainingPlan.sanitizeArray fuel none = [] :=
  ⟨safeParseArray_arr fuel,
   fun s w hne hp => safeParseArray_parse_rec fuel s w hne hp,
   fun s hne hp => safeParseArray_split fuel s hne hp,
   fun l => safeParseArray_stringifyStrArr fuel l,
   by rw [safeParseArray.eq_def],
   sanitizeArray_arr fuel,
   fun s w hne hp => sanitizeArray_parse_rec fuel s w hne hp,
   fun s hne hp => sanitizeArray_split fuel s hne hp,
   fun l => sanitizeArray_stringifyStrArr fuel l,
   by rw [TrainingPlan.sanitizeArray.eq_def]⟩

/-- C8 witness: the comma-split tier on `"a, b"` (not valid JSON) gives
`["a", "b"]` in both parsers. -/
theorem C8_three_tiers_witness :
    ¬("a, b" : String) = "" ∧ parseJsonStr "a, b" = none ∧
      safeParseArray 9 (some (Json.str "a, b")) = Except.ok ["a", "b"] ∧
      TrainingPlan.sanitizeArray 9 (some (Json.str "a, b")) = ["a", "b"] :=
  ⟨by decide, rfl,
   ((C8_three_tiers 9).2.2.1 "a, b" (by decide) rfl).trans rfl,
   ((C8_three_tiers 9).2.2.2.2.2.2.2.1 "a, b" (by decide) rfl).trans rfl⟩

/-- C9 (amended): in the aggregation stage the found jobs are never replaced, a
training-plan rejection is converted to inline fallback content at that call's own
boundary (so it never affects the page-level error), but a *simplify* rejection is
not caught per call: when every simplify promise resolves the page error stays as the
job-search stage left it, while one failing simplify listing surfaces as a page-level
error message. -/
theorem C9_enrichment_boundaries (f : List SearchJobs.JobListing)
    (sOut tOut : SearchJobs.JobListing → Upstream) (baseError : Option String) :
    (Aggregator.enrichResult f sOut tOut baseError).jobs = f ∧
    (∀ m, Aggregator.trainingHandler (Upstream.reject m) = Aggregator.CLIENT_CATCH_PLAN) ∧
    (∀ b, Aggregator.trainingHandler (Upstream.resp false b) =
      Aggregator.CLIENT_NOTOK_PLAN) ∧
    ((∀ j ∈ f, ∃ v, Aggregator.simplifyHandler (sOut j) = Except.ok v) →
      (Aggregator.enrichResult f sOut tOut baseError).error = baseError) ∧
    (∀ j ∈ f, ∀ m, Aggregator.simplifyHandler (sOut j) = Except.error m →
      ∃ m2, (Aggregator.enrichResult f sOut tOut baseError).error = some m2) := by
  refine ⟨rfl, fun m => rfl, fun b => rfl, ?_, ?_⟩
  · intro hall
    show (match f.filterMap (fun j =>
        match Aggregator.simplifyHandler (sOut j) with
        | Except.error m => some m
        | Except.ok _ => none) with
      | [] => baseError
      | m :: _ => some m) = baseError
    rw [simplifyErrs_nil f sOut hall]
  · intro j hj m hm
    cases hfm : f.filterMap (fun j =>
        match Aggregator.simplifyHandler (sOut j) with
        | Except.error m => some m
        | Except.ok _ => none) with
    | nil =>
      have hnone := List.filterMap_eq_nil_iff.mp hfm j hj
      rw [hm] at hnone
      exact Option.noConfusion hnone
    | cons m2 t =>
      refine ⟨m2, ?_⟩
      show (match f.filterMap (fun j =>
          match Aggregator.simplifyHandler (sOut j) with
          | Except.error m => some m
          | Except.ok _ => none) with
        | [] => baseError
        | m :: _ => some m) = some m2
      rw [hfm]

/-- C9 witness: with no listings at all, the aggregation leaves the error slot
untouched. -/
theorem C9_enrichment_boundaries_witness :
    (Aggregator.enrichResult [] (fun _ => Upstream.reject "x")
        (fun _ => Upstream.reject "x") none).error = none :=
  (C9_enrichment_boundaries [] (fun _ => Upstream.reject "x")
    (fun _ => Upstream.reject "x") none).2.2.2.1
    (fun j hj => absurd hj (List.not_mem_nil j))

/-- C9 counterexample: one listing's rejected simplify request becomes a page-level
error message even though the other listing's data loaded, against the spec's
"caught at the individual-call boundary, never propagated" description (the jobs list
itself is preserved and the healthy listing keeps its enrichment). -/
theorem C9_counterexample :
    (Aggregator.enrichResult
        [⟨"id1", "Clerk", "Emp1", "d1", "p1", "loc"⟩,
         ⟨"id2", "Greeter", "Emp2", "d2", "p2", "loc"⟩]
        (fun j => if j.id = "id1" then Upstream.reject "network down"
          else Upstream.resp true (Except.ok (Json.str "simplified")))
        (fun _ => Upstream.resp true (Except.ok (Json.str "plan"))) none).error =
      some "network down" ∧
    (Aggregator.enrichResult
        [⟨"id1", "Clerk", "Emp1", "d1", "p1", "loc"⟩,
         ⟨"id2", "Greeter", "Emp2", "d2", "p2", "loc"⟩]
        (fun j => if j.id = "id1" then Upstream.reject "network down"
          else Upstream.resp true (Except.ok (Json.str "simplified")))
        (fun _ => Upstream.resp true (Except.ok (Json.str "plan"))) none).jobs =
      [⟨"id1", "Clerk", "Emp1", "d1", "p1", "loc"⟩,
       ⟨"id2", "Greeter", "Emp2", "d2", "p2", "loc"⟩] ∧
    Aggregator.recordGet
      (Aggregator.enrichResult
        [⟨"id1", "Clerk", "Emp1", "d1", "p1", "loc"⟩,
         ⟨"id2", "Greeter", "Emp2", "d2", "p2", "loc"⟩]
        (fun j => if j.id = "id1" then Upstream.reject "network down"
          else Upstream.resp true (Except.ok (Json.str "simplified")))
        (fun _ => Upstream.resp true (Except.ok (Json.str "plan"))) none).simplified
      "id2" = some (Json.str "simplified") ∧
    Aggregator.recordGet
      (Aggregator.enrichResult
        [⟨"id1", "Clerk", "Emp1", "d1", "p1", "loc"⟩,
         ⟨"id2", "Greeter", "Emp2", "d2", "p2", "loc"⟩]
        (fun j => if j.id = "id1" then Upstream.reject "network down"
          else Upstream.resp true (Except.ok (Json.str "simplified")))
        (fun _ => Upstream.resp true (Except.ok (Json.str "plan"))) none).simplified
      "id1" = none :=
  ⟨rfl, rfl, rfl, rfl⟩

/-- C7 counterexample: with no API key configured the listings can only come from the
hardcoded fallback generator, yet the 200 response reports `fallbackUsed: false`. -/
theorem C7_counterexample :
    (SearchJobs.searchJobsPOST (Except.ok (Json.obj [("location", Json.str "Austin, TX")]))
        none (Upstream.reject "offline") 0 (fun _ => "r") (fun _ => "r") (fun l => l)).1 =
        200 ∧
      SearchJobs.fallbackUsedOf
        (SearchJobs.searchJobsPOST (Except.ok (Json.obj [("location", Json.str "Austin, TX")]))
          none (Upstream.reject "offline") 0 (fun _ => "r") (fun _ => "r") (fun l => l)).2 =
        some false :=
  ⟨rfl, rfl⟩

end HF
